import Mathlib

/-!
# goGifMaker: a shallow embedding of `gifMaker.go`

The program reads an optional `config.txt`, lists the working directory, keeps the
files that carry the configured extension and decode as images, renames them to
`000000.<ext>`, `000001.<ext>`, ... , runs `ffmpeg` three times and renames the files
back.

Everything outside the Go process is an explicit input of the model:

* `Env.config`      the lines `bufio.Scanner` yields from `config.txt` (or `none` when the
                    file cannot be opened);
* `Env.readDirErr`  the error of `os.ReadDir`, if any;
* `Env.probe`       what `os.Open` followed by `image.Decode` gives for a file name;
* `Env.exec`        what running an external command does (exit status, output, files);
* `Env.mapOrder`    the order in which `range` visits a Go map.

The working directory is a finite map from file names to contents, `os.Rename` replaces
an existing target, and the two library functions whose code is not part of the repository
(`unicode.ToLower` behind `strings.ToLower`, and `slices.SortFunc`) are fields of `GoLib`.
-/

namespace GifMaker

/-! ## Go's standard library -/

/-- Library code the program calls but does not contain. -/
structure GoLib where
  /-- The rune mapping `unicode.ToLower`. -/
  toLowerRune : Char → Char
  /-- The function `slices.SortFunc(x, cmp)`, as a function from the slice to the sorted slice. -/
  SortFunc : (String → String → Int) → List String → List String

/-- Go's `cmp.Compare` on strings: `-1` if `x < y`, `0` if `x == y`, `+1` if `x > y`,
strings being compared lexicographically. -/
def cmpCompare (x y : String) : Int :=
  if x.data < y.data then -1 else if y.data < x.data then 1 else 0

/-- Go's `strings.ToLower`: every rune is mapped by `unicode.ToLower`. -/
def ToLower (L : GoLib) (s : String) : String := ⟨s.data.map L.toLowerRune⟩

/-- Go's `strings.HasSuffix`. -/
def HasSuffix (s suffix : String) : Bool := suffix.data.isSuffixOf s.data

/-- Go's `strings.Trim(s, " ")`: all leading and trailing spaces removed. -/
def TrimSpaces (s : String) : String :=
  ⟨(s.data.dropWhile (fun c => c == ' ')).rdropWhile (fun c => c == ' ')⟩

/-- Go's `strings.Join(parts, " ")`. -/
def JoinSpace (parts : List String) : String := " ".intercalate parts

/-- The regular expression `^[a-zA-Z0-9]*$` of `setConfig`. -/
def matchAlnum (s : String) : Bool := s.data.all Char.isAlphanum

/-- The regular expression `^[0-9]*$` of `setConfig`. -/
def matchDigits (s : String) : Bool := s.data.all Char.isDigit

/-- Go's `fmt.Sprintf("%06d.", i)` for `i ≥ 0`: the decimal digits of `i`, padded on the left
with zeros to at least six digits, followed by a dot. -/
def Sprintf06dDot (i : Nat) : String :=
  ⟨List.replicate (6 - (Nat.toDigits 10 i).length) '0' ++ Nat.toDigits 10 i ++ ['.']⟩

/-- Go's `fmt.Sprint` of a `bool`. -/
def SprintBool (b : Bool) : String := if b then "true" else "false"

/-- The slice `slices.SortFunc` returns holds the elements it was given, each as often. -/
def GoLib.Permutes (L : GoLib) : Prop :=
  ∀ (cmp : String → String → Int) (l : List String), (L.SortFunc cmp l).Perm l

/-- The comparison `cmp` is a strict weak ordering, which `slices.SortFunc` requires:
`cmp a b < 0` says that `a` comes before `b`. -/
structure StrictWeak (cmp : String → String → Int) : Prop where
  irrefl : ∀ a, ¬ cmp a a < 0
  trans : ∀ a b c, cmp a b < 0 → cmp b c < 0 → cmp a c < 0
  incomparable_trans : ∀ a b c, ¬ cmp a b < 0 → ¬ cmp b a < 0 → ¬ cmp b c < 0 → ¬ cmp c b < 0 →
    ¬ cmp a c < 0 ∧ ¬ cmp c a < 0

/-- What the documentation of the library promises: `unicode.ToLower` lowers the ASCII
letters and leaves the other ASCII characters alone, and `slices.SortFunc` sorts the slice
"in ascending order as determined by the cmp function", a strict weak ordering: no element
of the result comes, by `cmp`, before an element that precedes it. "This sort is not
guaranteed to be stable." -/
structure GoLib.Documented (L : GoLib) : Prop where
  lower_ascii : ∀ c : Char, c.toNat < 128 → L.toLowerRune c = c.toLower
  sort_perm : L.Permutes
  sort_sorted : ∀ (cmp : String → String → Int), StrictWeak cmp → ∀ l : List String,
    (L.SortFunc cmp l).Pairwise (fun a b => ¬ cmp b a < 0)

/-! ## `setConfig` -/

/-- The three values `setConfig` returns. -/
structure Config where
  filetype : String
  fps : String
  debug : Bool
deriving DecidableEq, Repr

/-- Console output of `prln(text, doLog)`. -/
def prln (text : String) (doLog : Bool) : List String := if doLog then [text] else []

/-- The loop `for scanner.Scan() { ... line++ }` of `setConfig`: `lines` are the lines still to
be scanned, `line` the counter. -/
def scanConfig (L : GoLib) : List String → Nat → Config → Config
  | [], _, c => c
  | text :: rest, line, c =>
    if line = 0 then
      let filetypeFound := ToLower L (TrimSpaces text)
      scanConfig L rest (line + 1)
        (if filetypeFound.length ≠ 0 ∧ matchAlnum filetypeFound = true
          then { c with filetype := filetypeFound } else c)
    else if line = 1 then
      let fpsFound := TrimSpaces text
      scanConfig L rest (line + 1)
        (if fpsFound.length ≠ 0 ∧ matchDigits fpsFound = true
          then { c with fps := fpsFound } else c)
    else if line = 2 then
      let debugFound := TrimSpaces text
      scanConfig L rest (line + 1)
        (if debugFound.length ≠ 0 then { c with debug := false } else c)
    else c

/-- The values returned by `setConfig`; `config` holds the lines of `config.txt`, `none` when
`os.Open` fails. -/
def setConfig (L : GoLib) (config : Option (List String)) : Config :=
  match config with
  | none => { filetype := "png", fps := "30", debug := true }
  | some lines => scanConfig L lines 0 { filetype := "png", fps := "30", debug := true }

/-- The lines `setConfig` prints. -/
def setConfigOut (c : Config) : List String :=
  prln "running with parameters:" c.debug ++ prln ("\tfiletype " ++ c.filetype) c.debug ++
  prln ("\tfps " ++ c.fps) c.debug ++ prln ("\tdebug " ++ SprintBool c.debug) c.debug

/-! ## `genCmds` -/

/-- The three argument vectors built by `genCmds`. -/
structure Cmds where
  tileCmd : List String
  paletteCmd : List String
  gifCmd : List String
deriving DecidableEq, Repr

/-- The function `genCmds`. -/
def genCmds (filetype fps : String) (_dlog : Bool) (tileName paletteName : String) : Cmds :=
  { tileCmd := ["ffmpeg", "-y", "-hide_banner", "-i", "%6d." ++ filetype, "-vf",
      "format=rgb24,tile=10x10:color=black", "-frames:v", "1", tileName]
    paletteCmd := ["ffmpeg", "-y", "-hide_banner", "-i", tileName, "-vf",
      "palettegen=max_colors=64:reserve_transparent=1:stats_mode=single", paletteName]
    gifCmd := ["ffmpeg", "-y", "-hide_banner", "-framerate", fps, "-i", "%6d." ++ filetype,
      "-i", paletteName, "-filter_complex",
      "split[s0][s1]; [s0]palettegen= max_colors=256: stats_mode=single: reserve_transparent=on: transparency_color=ffffff[p]; [s1][p]paletteuse=new=1",
      "output.gif"] }

/-! ## `validateFiles` -/

/-- What `os.Open(curName)` followed by `image.Decode(reader)` gives for a file. -/
inductive Probe where
  /-- The call `os.Open` returns an error. -/
  | openError
  /-- The call `image.Decode` returns the error with this message. -/
  | decodeError (msg : String)
  /-- The image decodes; `dx` and `dy` are `m.Bounds().Dx()` and `m.Bounds().Dy()`. -/
  | image (dx dy : Int)
deriving DecidableEq, Repr

/-- Whether the file opened and decoded. -/
def Probe.isImage : Probe → Bool
  | .image _ _ => true
  | _ => false

/-- The local variables of `validateFiles`, and what it has printed. -/
structure ValidateState where
  toConvert : List String
  width : Int
  height : Int
  firstImg : String
  out : List String
deriving DecidableEq, Repr

/-- One turn of the loop `for _, e := range input` of `validateFiles`. -/
def validateStep (L : GoLib) (probe : String → Probe) (filetype : String) (dlog : Bool)
    (st : ValidateState) (curName : String) : ValidateState :=
  if HasSuffix (ToLower L curName) filetype = true then
    match probe curName with
    | .openError =>
      { st with
        out := st.out ++
          prln ("failed to open file " ++ curName ++ " skipping it from conversion") dlog }
    | .decodeError msg =>
      { st with
        out := st.out ++ prln msg dlog ++
          prln ("failed decode image of file " ++ curName ++ " skipping it from conversion") dlog }
    | .image dx dy =>
      let st1 : ValidateState :=
        if st.firstImg = "" then
          { st with width := dx, height := dy, firstImg := curName }
        else if st.width ≠ dx ∨ st.height ≠ dy then
          { st with
            out := st.out ++ prln
              ("Output might look unexpected because all files do not match in size. Difference in size with "
                ++ st.firstImg ++ " and " ++ curName) dlog }
        else st
      { st1 with toConvert := st1.toConvert ++ [curName] }
  else st

/-- The function `validateFiles`: the state after the loop over the directory entries. -/
def validateLoop (L : GoLib) (probe : String → Probe) (filetype : String) (dlog : Bool)
    (input : List String) : ValidateState :=
  input.foldl (validateStep L probe filetype dlog)
    { toConvert := [], width := 0, height := 0, firstImg := "", out := [] }

/-- The slice returned by `validateFiles`. -/
def validateFiles (L : GoLib) (probe : String → Probe) (filetype : String) (dlog : Bool)
    (input : List String) : List String :=
  (validateLoop L probe filetype dlog input).toConvert

/-! ## The working directory -/

/-- The working directory: file names with their contents. -/
abbrev Dir := List (String × String)

/-- The content of the file called `name`, if there is one. -/
def Dir.read (fs : Dir) (name : String) : Option String := fs.lookup name

/-- The call `os.Rename(oldpath, newpath)`: an error, and no change, when `oldpath` does not
exist; otherwise the file is moved, replacing `newpath` if that exists. -/
def Dir.rename (fs : Dir) (oldpath newpath : String) : Dir :=
  match fs.lookup oldpath with
  | none => fs
  | some content =>
    (newpath, content) :: fs.filter (fun p => p.1 ≠ oldpath ∧ p.1 ≠ newpath)

/-- The call `os.Remove(name)`; the flag tells whether it succeeded. -/
def Dir.remove (fs : Dir) (name : String) : Dir × Bool :=
  (fs.filter (fun p => p.1 ≠ name), (fs.lookup name).isSome)

/-- The names `os.ReadDir("./")` returns: all entries, sorted by file name. -/
def ReadDir (fs : Dir) : List String :=
  (fs.map Prod.fst).insertionSort (fun a b => a.data ≤ b.data)

/-- A Go `map[string]string`: the entries, each key once. -/
abbrev GoMap := List (String × String)

/-- The assignment `m[key] = value`. -/
def GoMap.assign (m : GoMap) (key value : String) : GoMap :=
  if m.any (fun p => p.1 == key) then
    m.map (fun p => if p.1 = key then (key, value) else p)
  else m ++ [(key, value)]

/-- Go's `fmt.Sprint` of a `map[string]string`: the entries in key order. -/
def SprintMap (m : GoMap) : String :=
  "map[" ++ " ".intercalate
    ((m.insertionSort (fun p q => p.1.data ≤ q.1.data)).map (fun p => p.1 ++ ":" ++ p.2)) ++ "]"

/-! ## The process and its surroundings -/

/-- What the process does to the world outside, in order. -/
inductive Event where
  /-- The program `exec.Command(parts[0], parts[1:]...)` is run. -/
  | exec (parts : List String)
  /-- The call `os.Rename(oldpath, newpath)`. -/
  | rename (oldpath newpath : String)
  /-- The call `os.Remove(name)`. -/
  | remove (name : String)
  /-- A line is read from standard input. -/
  | scanStdin
deriving DecidableEq, Repr

/-- The result of running an external command on a directory. -/
structure ExecResult where
  /-- Whether `cmd.CombinedOutput()` returned a nil error. -/
  ok : Bool
  /-- The combined standard output and standard error. -/
  output : String
  /-- The directory the command leaves. -/
  fs : Dir

/-- Everything the run depends on and the program does not contain. -/
structure Env where
  /-- The lines of `config.txt`, `none` when it cannot be opened. -/
  config : Option (List String)
  /-- The error of `os.ReadDir("./")`, `none` when the listing succeeds. -/
  readDirErr : Option String
  /-- Opening and decoding a file. -/
  probe : String → Probe
  /-- Running an external command. -/
  exec : List String → Dir → ExecResult
  /-- The order in which `range` visits the entries of a map. -/
  mapOrder : GoMap → List (String × String)

/-- The state of the world: the directory, what the process did, what it printed. -/
structure World where
  fs : Dir
  trace : List Event
  out : List String

/-- The call `os.Rename` in a world. -/
def World.rename (w : World) (oldpath newpath : String) : World :=
  { w with fs := w.fs.rename oldpath newpath, trace := w.trace ++ [Event.rename oldpath newpath] }

/-- The call `prln` in a world. -/
def World.print (w : World) (text : String) (doLog : Bool) : World :=
  { w with out := w.out ++ prln text doLog }

/-! ## `handleInputFiles`, `nameBack`, `runCmd`, `delTmpFile`, `main` -/

/-- The key `fmt.Sprintf("%06d.", i) + filetype`. -/
def newName (filetype : String) (i : Nat) : String := Sprintf06dDot i ++ filetype

/-- The loop `for i, curName := range entries` of `handleInputFiles`, from index `i` on. -/
def renameLoop (filetype : String) : List String → Nat → GoMap × World → GoMap × World
  | [], _, s => s
  | curName :: rest, i, (nameMap, w) =>
    renameLoop filetype rest (i + 1)
      (nameMap.assign (newName filetype i) curName, w.rename curName (newName filetype i))

/-- The comparison function handed to `slices.SortFunc`. -/
def lowerCmp (L : GoLib) (a b : String) : Int := cmpCompare (ToLower L a) (ToLower L b)

/-- The function `handleInputFiles`: the map it returns and the world it leaves. -/
def handleInputFiles (L : GoLib) (E : Env) (filetype : String) (dlog : Bool) (w : World) :
    GoMap × World :=
  match E.readDirErr with
  | some err => ([], w.print err dlog)
  | none =>
    let st := validateLoop L E.probe filetype dlog (ReadDir w.fs)
    let entries := L.SortFunc (lowerCmp L) st.toConvert
    let r := renameLoop filetype entries 0 ([], { w with out := w.out ++ st.out })
    (r.1, r.2.print
      ("Found files to convert into gif. Renaming them temporarily " ++ SprintMap r.1) dlog)

/-- The function `nameBack`, the map being visited in the order `order`. -/
def nameBackLoop : List (String × String) → World → World
  | [], w => w
  | (temp, og) :: rest, w => nameBackLoop rest (w.rename temp og)

/-- The function `nameBack`. -/
def nameBack (E : Env) (nameMap : GoMap) (w : World) : World :=
  nameBackLoop (E.mapOrder nameMap) w

/-- The function `runCmd`: whether the error is nil, and the world the command leaves. -/
def runCmd (E : Env) (parts : List String) (dlog : Bool) (w : World) : Bool × World :=
  let r := E.exec parts w.fs
  (r.ok,
    { fs := r.fs
      trace := w.trace ++ [Event.exec parts]
      out := w.out ++ prln (JoinSpace parts) dlog ++
        (if r.ok = false ∧ dlog = true then [r.output] else []) })

/-- The function `delTmpFile`; `genOk` says that `genError == nil`. -/
def delTmpFile (name : String) (genOk : Bool) (dlog : Bool) (w : World) : World :=
  if genOk = true then
    let r := w.fs.remove name
    { fs := r.1
      trace := w.trace ++ [Event.remove name]
      out := w.out ++
        (if r.2 = true then prln ("tmp file " ++ name ++ " deleted successfully") dlog
          else prln ("failed to delete temp file. File can be deleted manually " ++ name) dlog) }
  else w

/-- The function `main`: the world at the end of the process and its exit status. -/
def main (L : GoLib) (E : Env) (w : World) : World × Nat :=
  let c := setConfig L E.config
  let w := { w with out := w.out ++ setConfigOut c }
  let tileName := "tile.png"
  let paletteName := "palette.png"
  let cmds := genCmds c.filetype c.fps c.debug tileName paletteName
  let h := handleInputFiles L E c.filetype c.debug w
  if h.1.length = 0 then
    (h.2.print ("no files with type '" ++ c.filetype ++ "' found. Exiting") c.debug, 0)
  else
    let tile := runCmd E cmds.tileCmd c.debug h.2
    if tile.1 = false then
      (nameBack E h.1 tile.2, 1)
    else
      let palette := runCmd E cmds.paletteCmd c.debug tile.2
      let w3 :=
        if palette.1 = true then
          let gif := runCmd E cmds.gifCmd c.debug palette.2
          if gif.1 = true then gif.2.print "output.gif generated" c.debug else gif.2
        else palette.2
      let w4 := nameBack E h.1 w3
      let w5 := delTmpFile tileName tile.1 c.debug w4
      let w6 := delTmpFile paletteName palette.1 c.debug w5
      if c.debug = true then
        ({ (w6.print "Press Enter to exit" c.debug) with
            trace := w6.trace ++ [Event.scanStdin] }, 0)
      else (w6, 0)

/-! ## Three implementations of the library

`stableLib` sorts by a stable insertion sort, `mirrorLib` by the same sort applied to the
reversed slice, `pdqLib` by the pattern-defeating quicksort that Go's `slices` package ships
(`zsortanyfunc.go`). All three lower the ASCII letters only: they stand for Go's library on
names made of ASCII characters, which is what they are used at. -/

/-- A stable insertion sort: an element is put before the first one that does not come
before it. -/
def insertionSortFunc (cmp : String → String → Int) (l : List String) : List String :=
  l.insertionSort (fun a b => ¬ cmp b a < 0)

/-- The library with a stable sort. -/
def stableLib : GoLib := { toLowerRune := Char.toLower, SortFunc := insertionSortFunc }

/-- A library whose sort is in ascending order and not stable: equal elements come out in
the reverse of the order they came in. -/
def mirrorLib : GoLib :=
  { toLowerRune := Char.toLower, SortFunc := fun cmp l => insertionSortFunc cmp l.reverse }

/-- The statement `data[i], data[j] = data[j], data[i]` (an index outside the slice, a
run-time panic in Go, leaves the slice as it is). -/
def swapAt (data : List String) (i j : Nat) : List String :=
  if i < data.length ∧ j < data.length then
    (data.set i (data.getD j "")).set j (data.getD i "")
  else data

/-- The test `cmp(data[i], data[j]) < 0`. -/
def lessAt (cmp : String → String → Int) (data : List String) (i j : Nat) : Bool :=
  decide (cmp (data.getD i "") (data.getD j "") < 0)

/-- The inner loop of `insertionSortCmpFunc`:
`for j := i; j > a && cmp(data[j], data[j-1]) < 0; j--`. -/
def insertionInner (cmp : String → String → Int) (a : Nat) : Nat → List String → List String
  | 0, data => data
  | j + 1, data =>
    if a < j + 1 ∧ lessAt cmp data (j + 1) j = true then
      insertionInner cmp a j (swapAt data (j + 1) j)
    else data

/-- Go's `insertionSortCmpFunc`: sorts `data[a:b]` by insertion. -/
def insertionSortCmpFunc (cmp : String → String → Int) (data : List String) (a b : Nat) :
    List String :=
  (List.range' (a + 1) (b - (a + 1))).foldl (fun d i => insertionInner cmp a i d) data

/-- Go's `siftDownCmpFunc`. -/
def siftDownCmpFunc (cmp : String → String → Int) (hi first : Nat) :
    Nat → List String → Nat → List String
  | 0, data, _ => data
  | fuel + 1, data, root =>
    let child := 2 * root + 1
    if hi ≤ child then data
    else
      let child :=
        if child + 1 < hi ∧ lessAt cmp data (first + child) (first + child + 1) = true
        then child + 1 else child
      if lessAt cmp data (first + root) (first + child) = false then data
      else siftDownCmpFunc cmp hi first fuel (swapAt data (first + root) (first + child)) child

/-- Go's `heapSortCmpFunc`. -/
def heapSortCmpFunc (cmp : String → String → Int) (data : List String) (a b : Nat) :
    List String :=
  let first := a
  let hi := b - a
  let built := (List.range ((hi - 1) / 2 + 1)).reverse.foldl
    (fun d i => siftDownCmpFunc cmp hi first hi d i) data
  (List.range hi).reverse.foldl
    (fun d i => siftDownCmpFunc cmp i first hi (swapAt d first (first + i)) 0) built

/-- Go's `bits.Len`. -/
def bitsLen (n : Nat) : Nat := if n = 0 then 0 else Nat.log2 n + 1

/-- One call of `xorshift.Next` on a 64-bit state. -/
def xorshiftNext (r : Nat) : Nat :=
  let r := r ^^^ ((r <<< 13) % 2 ^ 64)
  let r := r ^^^ (r >>> 7)
  r ^^^ ((r <<< 17) % 2 ^ 64)

/-- Go's `breakPatternsCmpFunc`. -/
def breakPatternsCmpFunc (data : List String) (a b : Nat) : List String :=
  let length := b - a
  if 8 ≤ length then
    let modulus := 2 ^ bitsLen length
    let idx := a + (length / 4) * 2
    let step := fun (s : Nat × List String) (i : Nat) =>
      let random := xorshiftNext s.1
      let other := random % modulus
      let other := if length ≤ other then other - length else other
      (random, swapAt s.2 (idx - 1 + i) (a + other))
    ([0, 1, 2].foldl step (length, data)).2
  else data

/-- Go's `sortedHint`. -/
inductive SortedHint where
  | unknownHint
  | increasingHint
  | decreasingHint
deriving DecidableEq, Repr

/-- Go's `order2CmpFunc`; the third component is the swap counter. -/
def order2CmpFunc (cmp : String → String → Int) (data : List String) (a b swaps : Nat) :
    Nat × Nat × Nat :=
  if lessAt cmp data b a = true then (b, a, swaps + 1) else (a, b, swaps)

/-- Go's `medianCmpFunc`; the second component is the swap counter. -/
def medianCmpFunc (cmp : String → String → Int) (data : List String) (a b c swaps : Nat) :
    Nat × Nat :=
  let r1 := order2CmpFunc cmp data a b swaps
  let r2 := order2CmpFunc cmp data r1.2.1 c r1.2.2
  let r3 := order2CmpFunc cmp data r1.1 r2.1 r2.2.2
  (r3.2.1, r3.2.2)

/-- Go's `choosePivotCmpFunc`. -/
def choosePivotCmpFunc (cmp : String → String → Int) (data : List String) (a b : Nat) :
    Nat × SortedHint :=
  let l := b - a
  let i := a + l / 4 * 1
  let j := a + l / 4 * 2
  let k := a + l / 4 * 3
  let r : Nat × Nat :=
    if 8 ≤ l then
      if 50 ≤ l then
        let mi := medianCmpFunc cmp data (i - 1) i (i + 1) 0
        let mj := medianCmpFunc cmp data (j - 1) j (j + 1) mi.2
        let mk := medianCmpFunc cmp data (k - 1) k (k + 1) mj.2
        medianCmpFunc cmp data mi.1 mj.1 mk.1 mk.2
      else medianCmpFunc cmp data i j k 0
    else (j, 0)
  if r.2 = 0 then (r.1, SortedHint.increasingHint)
  else if r.2 = 12 then (r.1, SortedHint.decreasingHint)
  else (r.1, SortedHint.unknownHint)

/-- Go's `reverseRangeCmpFunc`. -/
def reverseRangeCmpFunc : Nat → List String → Nat → Nat → List String
  | 0, data, _, _ => data
  | fuel + 1, data, i, j =>
    if i < j then reverseRangeCmpFunc fuel (swapAt data i j) (i + 1) (j - 1) else data

/-- The loop `for i <= j && cmp(data[i], data[a]) < 0 { i++ }`. -/
def scanUpLess (cmp : String → String → Int) (data : List String) (a j : Nat) : Nat → Nat → Nat
  | 0, i => i
  | fuel + 1, i =>
    if i ≤ j ∧ lessAt cmp data i a = true then scanUpLess cmp data a j fuel (i + 1) else i

/-- The loop `for i <= j && !(cmp(data[j], data[a]) < 0) { j-- }`. -/
def scanDownNotLess (cmp : String → String → Int) (data : List String) (a i : Nat) :
    Nat → Nat → Nat
  | 0, j => j
  | fuel + 1, j =>
    if i ≤ j ∧ lessAt cmp data j a = false then scanDownNotLess cmp data a i fuel (j - 1) else j

/-- The second loop of `partitionCmpFunc`. -/
def partitionLoop (cmp : String → String → Int) (a b : Nat) :
    Nat → List String → Nat → Nat → List String × Nat
  | 0, data, _, j => (data, j)
  | fuel + 1, data, i, j =>
    let i := scanUpLess cmp data a j b i
    let j := scanDownNotLess cmp data a i b j
    if j < i then (data, j)
    else partitionLoop cmp a b fuel (swapAt data i j) (i + 1) (j - 1)

/-- Go's `partitionCmpFunc`: the slice, the new pivot index, and `alreadyPartitioned`. -/
def partitionCmpFunc (cmp : String → String → Int) (data : List String) (a b pivot : Nat) :
    List String × Nat × Bool :=
  let data := swapAt data a pivot
  let i := scanUpLess cmp data a (b - 1) b (a + 1)
  let j := scanDownNotLess cmp data a i b (b - 1)
  if j < i then (swapAt data j a, j, true)
  else
    let r := partitionLoop cmp a b b (swapAt data i j) (i + 1) (j - 1)
    (swapAt r.1 r.2 a, r.2, false)

/-- The loop `for i <= j && !(cmp(data[a], data[i]) < 0) { i++ }`. -/
def scanUpNotGreater (cmp : String → String → Int) (data : List String) (a j : Nat) :
    Nat → Nat → Nat
  | 0, i => i
  | fuel + 1, i =>
    if i ≤ j ∧ lessAt cmp data a i = false then scanUpNotGreater cmp data a j fuel (i + 1)
    else i

/-- The loop `for i <= j && cmp(data[a], data[j]) < 0 { j-- }`. -/
def scanDownGreater (cmp : String → String → Int) (data : List String) (a i : Nat) :
    Nat → Nat → Nat
  | 0, j => j
  | fuel + 1, j =>
    if i ≤ j ∧ lessAt cmp data a j = true then scanDownGreater cmp data a i fuel (j - 1) else j

/-- The loop of `partitionEqualCmpFunc`. -/
def partitionEqualLoop (cmp : String → String → Int) (a b : Nat) :
    Nat → List String → Nat → Nat → List String × Nat
  | 0, data, i, _ => (data, i)
  | fuel + 1, data, i, j =>
    let i := scanUpNotGreater cmp data a j b i
    let j := scanDownGreater cmp data a i b j
    if j < i then (data, i)
    else partitionEqualLoop cmp a b fuel (swapAt data i j) (i + 1) (j - 1)

/-- Go's `partitionEqualCmpFunc`. -/
def partitionEqualCmpFunc (cmp : String → String → Int) (data : List String)
    (a b pivot : Nat) : List String × Nat :=
  partitionEqualLoop cmp a b b (swapAt data a pivot) (a + 1) (b - 1)

/-- The loop `for i < b && !(cmp(data[i], data[i-1]) < 0) { i++ }`. -/
def scanSorted (cmp : String → String → Int) (data : List String) (b : Nat) : Nat → Nat → Nat
  | 0, i => i
  | fuel + 1, i =>
    if i < b ∧ lessAt cmp data i (i - 1) = false then scanSorted cmp data b fuel (i + 1) else i

/-- The loop `for j := i - 1; j >= 1; j--` of `partialInsertionSortCmpFunc`. -/
def shiftSmaller (cmp : String → String → Int) : Nat → List String → List String
  | 0, data => data
  | j + 1, data =>
    if lessAt cmp data (j + 1) j = false then data
    else shiftSmaller cmp j (swapAt data (j + 1) j)

/-- The loop `for j := i + 1; j < b; j++` of `partialInsertionSortCmpFunc`. -/
def shiftGreater (cmp : String → String → Int) (b : Nat) : Nat → Nat → List String → List String
  | 0, _, data => data
  | fuel + 1, j, data =>
    if j < b then
      if lessAt cmp data j (j - 1) = false then data
      else shiftGreater cmp b fuel (j + 1) (swapAt data j (j - 1))
    else data

/-- The loop `for j := 0; j < maxSteps; j++` of `partialInsertionSortCmpFunc`. -/
def partialInsertionLoop (cmp : String → String → Int) (a b : Nat) :
    Nat → Nat → List String → List String × Bool
  | 0, _, data => (data, false)
  | steps + 1, i, data =>
    let i := scanSorted cmp data b b i
    if i = b then (data, true)
    else if b - a < 50 then (data, false)
    else
      let data := swapAt data i (i - 1)
      let data := if 2 ≤ i - a then shiftSmaller cmp (i - 1) data else data
      let data := if 2 ≤ b - i then shiftGreater cmp b b (i + 1) data else data
      partialInsertionLoop cmp a b steps i data

/-- Go's `partialInsertionSortCmpFunc`. -/
def partialInsertionSortCmpFunc (cmp : String → String → Int) (data : List String) (a b : Nat) :
    List String × Bool :=
  partialInsertionLoop cmp a b 5 (a + 1) data

/-- Go's `pdqsortCmpFunc`: one recursion step for each turn of its loop and each call of
itself; the range `data[a:b]` shrinks every time, so `fuel` above its length is enough
(`pdqsortCmpFunc_fuel`). -/
def pdqsortCmpFunc (cmp : String → String → Int) :
    Nat → List String → Nat → Nat → Nat → Bool → Bool → List String
  | 0, data, _, _, _, _, _ => data
  | fuel + 1, data, a, b, limit, wasBalanced, wasPartitioned =>
    let length := b - a
    if length ≤ 12 then insertionSortCmpFunc cmp data a b
    else if limit = 0 then heapSortCmpFunc cmp data a b
    else
      let data := if wasBalanced = false then breakPatternsCmpFunc data a b else data
      let limit := if wasBalanced = false then limit - 1 else limit
      let p := choosePivotCmpFunc cmp data a b
      let data :=
        if p.2 = SortedHint.decreasingHint then reverseRangeCmpFunc b data a (b - 1) else data
      let pivot := if p.2 = SortedHint.decreasingHint then (b - 1) - (p.1 - a) else p.1
      let hint :=
        if p.2 = SortedHint.decreasingHint then SortedHint.increasingHint else p.2
      let tryPartial :=
        wasBalanced = true ∧ wasPartitioned = true ∧ hint = SortedHint.increasingHint
      let q := if tryPartial then partialInsertionSortCmpFunc cmp data a b else (data, false)
      if tryPartial ∧ q.2 = true then q.1
      else
        let data := q.1
        if 0 < a ∧ lessAt cmp data (a - 1) pivot = false then
          let e := partitionEqualCmpFunc cmp data a b pivot
          pdqsortCmpFunc cmp fuel e.1 e.2 b limit wasBalanced wasPartitioned
        else
          let r := partitionCmpFunc cmp data a b pivot
          let mid := r.2.1
          let leftLen := mid - a
          let rightLen := b - mid
          let balanceThreshold := length / 8
          if leftLen < rightLen then
            pdqsortCmpFunc cmp fuel (pdqsortCmpFunc cmp fuel r.1 a mid limit true true)
              (mid + 1) b limit (decide (balanceThreshold ≤ leftLen)) r.2.2
          else
            pdqsortCmpFunc cmp fuel (pdqsortCmpFunc cmp fuel r.1 (mid + 1) b limit true true)
              a mid limit (decide (balanceThreshold ≤ rightLen)) r.2.2

/-- Go's `slices.SortFunc`: `pdqsortCmpFunc(x, 0, n, bits.Len(uint(n)), cmp)`. -/
def pdqSortFunc (cmp : String → String → Int) (x : List String) : List String :=
  pdqsortCmpFunc cmp (x.length + 1) x 0 x.length (bitsLen x.length) true true

/-- The library with Go's own sort. Its `toLowerRune` is `Char.toLower`, which agrees with
`unicode.ToLower` on the ASCII characters and, unlike it, leaves every other rune alone: the
library stands for Go's on ASCII names only. -/
def pdqLib : GoLib := { toLowerRune := Char.toLower, SortFunc := pdqSortFunc }

/-! ## Vocabulary of the statements -/

/-- The number a string of decimal digits stands for. -/
def digitsValue (cs : List Char) : Nat := cs.foldl (fun acc c => acc * 10 + (c.toNat - 48)) 0

/-- The files `validateFiles` accepts in a directory, in listing order. -/
def acceptedFiles (L : GoLib) (E : Env) (filetype : String) (fs : Dir) : List String :=
  validateFiles L E.probe filetype true (ReadDir fs)

/-- The accepted files in the order `handleInputFiles` walks through them. -/
def sortedEntries (L : GoLib) (E : Env) (filetype : String) (fs : Dir) : List String :=
  L.SortFunc (lowerCmp L) (acceptedFiles L E filetype fs)

/-- The renames `handleInputFiles` performs on the entries, in order. -/
def forwardEvents (filetype : String) (entries : List String) : List Event :=
  (entries.enumFrom 0).map (fun p => Event.rename p.2 (newName filetype p.1))

/-- The renames `nameBack` performs when it visits the map in the given order. -/
def backEvents (order : List (String × String)) : List Event :=
  order.map (fun p => Event.rename p.1 p.2)

/-- The original names by sequence index: the value under `newName filetype 0`, then the
value under `newName filetype 1`, and so on. -/
def assignedOrder (filetype : String) (nameMap : GoMap) : List String :=
  (List.range nameMap.length).filterMap (fun i => nameMap.lookup (newName filetype i))

/-- A sequence of `os.Rename(p.1, p.2)` calls on a directory. -/
def renamePairs (fs : Dir) (pairs : List (String × String)) : Dir :=
  pairs.foldl (fun d p => d.rename p.1 p.2) fs

/-- The map `handleInputFiles` builds from the entries: index `i` under `newName filetype i`. -/
def indexedMap (filetype : String) (entries : List String) : GoMap :=
  (entries.enumFrom 0).map (fun p => (newName filetype p.1, p.2))

/-- The commands `main` builds from the configuration. -/
def mainCmds (L : GoLib) (E : Env) : Cmds :=
  genCmds (setConfig L E.config).filetype (setConfig L E.config).fps (setConfig L E.config).debug
    "tile.png" "palette.png"

/-- The map `main` gets from `handleInputFiles`. -/
def mainMap (L : GoLib) (E : Env) (w : World) : GoMap :=
  (handleInputFiles L E (setConfig L E.config).filetype (setConfig L E.config).debug w).1

/-- The directory `main` hands to the tile command: the one `handleInputFiles` leaves. -/
def renamedDir (L : GoLib) (E : Env) (w : World) : Dir :=
  (handleInputFiles L E (setConfig L E.config).filetype (setConfig L E.config).debug w).2.fs

/-- The run of the tile command in `main`. -/
def tileResult (L : GoLib) (E : Env) (w : World) : ExecResult :=
  E.exec (mainCmds L E).tileCmd (renamedDir L E w)

/-- The run of the palette command in `main` (after a tile command that succeeded). -/
def paletteResult (L : GoLib) (E : Env) (w : World) : ExecResult :=
  E.exec (mainCmds L E).paletteCmd (tileResult L E w).fs

/-- The run of the render command in `main` (after a palette command that succeeded). -/
def gifResult (L : GoLib) (E : Env) (w : World) : ExecResult :=
  E.exec (mainCmds L E).gifCmd (paletteResult L E w).fs

/-- The file `x` is one that `main` removes at the end of the run: files were accepted, the
tile command succeeded, and `x` is `tile.png`, or `palette.png` after a palette command that
succeeded. -/
def removedAtEnd (L : GoLib) (E : Env) (w : World) (x : String) : Prop :=
  mainMap L E w ≠ [] ∧ (tileResult L E w).ok = true ∧
    (x = "tile.png" ∨ (x = "palette.png" ∧ (paletteResult L E w).ok = true))

/-- An environment without `config.txt`, in which the directory can be listed, every file
decodes as an image of one pixel, every command ends with the status `ok` and leaves the
directory as it is, and a map is visited in the order `order` gives. -/
def plainEnv (ok : Bool) (order : GoMap → List (String × String)) : Env :=
  { config := none
    readDirErr := none
    probe := fun _ => Probe.image 1 1
    exec := fun _ fs => { ok := ok, output := "", fs := fs }
    mapOrder := order }

/-- An environment like `plainEnv` in which every command writes the file its last argument
names, as the three `ffmpeg` commands do. -/
def writingEnv (ok : Bool) (order : GoMap → List (String × String)) : Env :=
  { config := none
    readDirErr := none
    probe := fun _ => Probe.image 1 1
    exec := fun parts fs =>
      { ok := ok
        output := ""
        fs := (parts.getLastD "", "made") :: fs.filter (fun p => p.1 ≠ parts.getLastD "") }
    mapOrder := order }

/-- A directory with a file whose name is a generated name. -/
def collisionDir : Dir := [("0.png", "A"), ("000000.png", "B")]

/-- A directory with two images. -/
def twoImagesDir : Dir := [("a.png", "A"), ("B.png", "B")]

/-- A directory with thirteen images, two of which differ in case only. -/
def thirteenDir : Dir :=
  [("XA.png", "1"), ("Xa.png", "2"), ("a.png", "3"), ("b.png", "4"), ("c.png", "5"),
    ("d.png", "6"), ("e.png", "7"), ("f.png", "8"), ("g.png", "9"), ("h.png", "10"),
    ("i.png", "11"), ("j.png", "12"), ("k.png", "13")]

/-- A world that starts in the directory `fs`. -/
def startIn (fs : Dir) : World := { fs := fs, trace := [], out := [] }

/-! ## Configuration -/

theorem scanConfig_done (L : GoLib) (lines : List String) (line : Nat) (c : Config)
    (h : 3 ≤ line) : scanConfig L lines line c = c := by
  cases lines with
  | nil => rfl
  | cons text rest =>
    have h0 : line ≠ 0 := by omega
    have h1 : line ≠ 1 := by omega
    have h2 : line ≠ 2 := by omega
    simp [scanConfig, h0, h1, h2]

theorem scanConfig_third (L : GoLib) (text : String) (rest : List String) (c : Config) :
    scanConfig L (text :: rest) 2 c =
      if (TrimSpaces text).length ≠ 0 then { c with debug := false } else c := by
  simp [scanConfig, scanConfig_done]

theorem scanConfig_second (L : GoLib) (text : String) (rest : List String) (c : Config) :
    scanConfig L (text :: rest) 1 c =
      scanConfig L rest 2
        (if (TrimSpaces text).length ≠ 0 ∧ matchDigits (TrimSpaces text) = true
          then { c with fps := TrimSpaces text } else c) := by
  simp [scanConfig]

theorem scanConfig_first (L : GoLib) (text : String) (rest : List String) (c : Config) :
    scanConfig L (text :: rest) 0 c =
      scanConfig L rest 1
        (if (ToLower L (TrimSpaces text)).length ≠ 0 ∧
            matchAlnum (ToLower L (TrimSpaces text)) = true
          then { c with filetype := ToLower L (TrimSpaces text) } else c) := by
  simp [scanConfig]

theorem scanConfig_from_two_fps (L : GoLib) (lines : List String) (c : Config) :
    (scanConfig L lines 2 c).fps = c.fps := by
  cases lines with
  | nil => rfl
  | cons text rest =>
    rw [scanConfig_third]
    split <;> rfl

/-- C7. The frame rate returned by `setConfig` is the second line of the settings file with
its surrounding spaces trimmed when that is non-empty and all digits, and `"30"` otherwise
(also when the file is absent or has fewer than two lines); it is always a non-empty string
of digits, and a second line `abc` gives `"30"`. -/
theorem setConfig_fps (L : GoLib) (config : Option (List String)) :
    (setConfig L config).fps =
      (match config.bind (fun lines => lines[1]?) with
        | some second =>
          if (TrimSpaces second).length ≠ 0 ∧ matchDigits (TrimSpaces second) = true
            then TrimSpaces second else "30"
        | none => "30") ∧
    ((setConfig L config).fps.length ≠ 0 ∧ matchDigits (setConfig L config).fps = true) ∧
    (∀ (first : String) (rest : List String),
      (setConfig L (some (first :: "abc" :: rest))).fps = "30") := by
  have key : ∀ cfg : Option (List String), (setConfig L cfg).fps =
      (match cfg.bind (fun lines => lines[1]?) with
        | some second =>
          if (TrimSpaces second).length ≠ 0 ∧ matchDigits (TrimSpaces second) = true
            then TrimSpaces second else "30"
        | none => "30") := by
    intro cfg
    match cfg with
    | none => rfl
    | some [] => rfl
    | some [first] =>
      simp only [setConfig, scanConfig_first, Option.bind]
      simp only [scanConfig]
      split <;> rfl
    | some (first :: second :: rest) =>
      simp only [setConfig, scanConfig_first, scanConfig_second, scanConfig_from_two_fps,
        Option.bind]
      simp only [List.getElem?_cons_succ, List.getElem?_cons_zero]
      split <;> split <;> rfl
  refine ⟨key config, ?_, ?_⟩
  · rw [key config]
    split
    · split
      · assumption
      · decide
    · decide
  · intro first rest
    rw [key]
    have h : matchDigits (TrimSpaces "abc") = false := by decide
    simp [h]

/-- C8, as the claim has it, fails: a third line holding one space is not empty, yet the flag
stays `true`. -/
theorem setConfig_debug_space_line :
    (" " : String) ≠ "" ∧ (setConfig pdqLib (some ["png", "30", " "])).debug = true := by
  decide

/-- C8, amended. With three lines or more, the flag is `false` exactly when the third line is
non-empty once its surrounding spaces are trimmed; with fewer than three lines (or no file)
it is `true`; lines after the third change none of the three returned values. -/
theorem setConfig_debug (L : GoLib) :
    (∀ (l1 l2 l3 : String) (rest : List String),
      ((setConfig L (some (l1 :: l2 :: l3 :: rest))).debug = false ↔
        (TrimSpaces l3).length ≠ 0)) ∧
    (setConfig L none).debug = true ∧
    (setConfig L (some [])).debug = true ∧
    (∀ l1 : String, (setConfig L (some [l1])).debug = true) ∧
    (∀ l1 l2 : String, (setConfig L (some [l1, l2])).debug = true) ∧
    (∀ (l1 l2 l3 : String) (rest : List String),
      setConfig L (some (l1 :: l2 :: l3 :: rest)) = setConfig L (some [l1, l2, l3])) := by
  refine ⟨?_, rfl, rfl, ?_, ?_, ?_⟩
  · intro l1 l2 l3 rest
    simp only [setConfig, scanConfig_first, scanConfig_second, scanConfig_third]
    split <;> split <;> split <;> simp_all
  · intro l1
    simp only [setConfig, scanConfig_first]
    simp only [scanConfig]
    split <;> rfl
  · intro l1 l2
    simp only [setConfig, scanConfig_first, scanConfig_second]
    simp only [scanConfig]
    split <;> split <;> rfl
  · intro l1 l2 l3 rest
    simp only [setConfig, scanConfig_first, scanConfig_second, scanConfig_third]

/-! ## The command lines -/

/-- C10, as the claim has it, fails: for the extension `png` the argument after `-i` is
`%6d.png` in both commands, not `%06d.png`, while the first generated name is
`000000.png`. -/
theorem genCmds_pattern_png :
    (genCmds "png" "30" true "tile.png" "palette.png").tileCmd[4]? ≠ some "%06d.png" ∧
    (genCmds "png" "30" true "tile.png" "palette.png").gifCmd[6]? ≠ some "%06d.png" ∧
    (genCmds "png" "30" true "tile.png" "palette.png").tileCmd[4]? = some "%6d.png" ∧
    newName "png" 0 = "000000.png" := by
  decide

/-- C10, amended. In the tile command and in the render command the argument that follows
the first `-i` is `%6d.` followed by the extension: the same pattern in both, of width six
and without the zero flag of the `%06d.` that `handleInputFiles` formats with. -/
theorem genCmds_pattern (filetype fps : String) (dlog : Bool) (tileName paletteName : String) :
    (genCmds filetype fps dlog tileName paletteName).tileCmd[3]? = some "-i" ∧
    (genCmds filetype fps dlog tileName paletteName).tileCmd[4]? = some ("%6d." ++ filetype) ∧
    (genCmds filetype fps dlog tileName paletteName).gifCmd[5]? = some "-i" ∧
    (genCmds filetype fps dlog tileName paletteName).gifCmd[6]? = some ("%6d." ++ filetype) ∧
    "%6d." ++ filetype ≠ "%06d." ++ filetype := by
  refine ⟨rfl, rfl, rfl, rfl, ?_⟩
  intro h
  have h2 := congrArg String.data h
  simp only [String.data_append] at h2
  have h3 := congrArg (fun l => l[1]?) h2
  simp at h3

/-! ## Validation -/

theorem validateStep_toConvert (L : GoLib) (probe : String → Probe) (filetype : String)
    (dlog : Bool) (st : ValidateState) (curName : String) :
    (validateStep L probe filetype dlog st curName).toConvert =
      st.toConvert ++
        [curName].filter (fun n => HasSuffix (ToLower L n) filetype && (probe n).isImage) := by
  unfold validateStep
  by_cases hs : HasSuffix (ToLower L curName) filetype = true
  · rw [if_pos hs]
    cases hp : probe curName with
    | openError => simp [List.filter, hs, hp, Probe.isImage]
    | decodeError msg => simp [List.filter, hs, hp, Probe.isImage]
    | image dx dy =>
      simp only [List.filter, hs, hp, Probe.isImage, Bool.and_self]
      split
      · rfl
      · split <;> rfl
  · rw [if_neg hs]
    simp [List.filter, hs]

theorem validate_foldl_toConvert (L : GoLib) (probe : String → Probe) (filetype : String)
    (dlog : Bool) (input : List String) (st : ValidateState) :
    (input.foldl (validateStep L probe filetype dlog) st).toConvert =
      st.toConvert ++
        input.filter (fun n => HasSuffix (ToLower L n) filetype && (probe n).isImage) := by
  induction input generalizing st with
  | nil => simp
  | cons x xs ih =>
    rw [List.foldl_cons, ih, validateStep_toConvert, List.append_assoc, ← List.filter_append]
    rfl

theorem validateFiles_filter (L : GoLib) (probe : String → Probe) (filetype : String)
    (dlog : Bool) (input : List String) :
    validateFiles L probe filetype dlog input =
      input.filter (fun n => HasSuffix (ToLower L n) filetype && (probe n).isImage) := by
  unfold validateFiles validateLoop
  rw [validate_foldl_toConvert]
  rfl

/-- C4. The slice returned by `validateFiles` is the sublist, in listing order, of the
entries whose lowercased name ends with the extension and that open and decode: an entry
that fails to open or to decode is left out, and an entry that decodes is kept whatever its
dimensions. -/
theorem validateFiles_accepts (L : GoLib) (probe : String → Probe) (filetype : String)
    (dlog : Bool) (input : List String) :
    validateFiles L probe filetype dlog input =
      input.filter (fun n => HasSuffix (ToLower L n) filetype && (probe n).isImage) ∧
    (validateFiles L probe filetype dlog input).Sublist input ∧
    (∀ (n msg : String), probe n = Probe.decodeError msg →
      n ∉ validateFiles L probe filetype dlog input) ∧
    (∀ n : String, probe n = Probe.openError →
      n ∉ validateFiles L probe filetype dlog input) ∧
    (∀ (n : String) (dx dy : Int), n ∈ input → HasSuffix (ToLower L n) filetype = true →
      probe n = Probe.image dx dy → n ∈ validateFiles L probe filetype dlog input) := by
  rw [validateFiles_filter]
  refine ⟨rfl, List.filter_sublist _, ?_, ?_, ?_⟩
  · intro n msg hp hmem
    have := (List.mem_filter.mp hmem).2
    simp [hp, Probe.isImage] at this
  · intro n hp hmem
    have := (List.mem_filter.mp hmem).2
    simp [hp, Probe.isImage] at this
  · intro n dx dy hmem hs hp
    exact List.mem_filter.mpr ⟨hmem, by simp [hs, hp, Probe.isImage]⟩

/-! ## Generated names -/

theorem digitChar_value (k : Nat) (h : k < 10) : (Nat.digitChar k).toNat - 48 = k := by
  interval_cases k <;> rfl

theorem digitsValue_foldl_core (fuel : Nat) : ∀ (n : Nat) (ds : List Char), n < fuel →
    (Nat.toDigitsCore 10 fuel n ds).foldl (fun acc c => acc * 10 + (c.toNat - 48)) 0 =
      ds.foldl (fun acc c => acc * 10 + (c.toNat - 48)) n := by
  induction fuel with
  | zero => intro n ds h; omega
  | succ fuel ih =>
    intro n ds h
    simp only [Nat.toDigitsCore]
    by_cases h0 : n / 10 = 0
    · simp only [h0, if_true, List.foldl_cons]
      rw [digitChar_value _ (Nat.mod_lt _ (by decide))]
      have : n % 10 = n := by omega
      simp [this]
    · simp only [h0, if_false]
      rw [ih (n / 10) _ (by omega), List.foldl_cons,
        digitChar_value _ (Nat.mod_lt _ (by decide))]
      have : n / 10 * 10 + n % 10 = n := by omega
      rw [this]

theorem digitsValue_toDigits (n : Nat) : digitsValue (Nat.toDigits 10 n) = n := by
  unfold digitsValue Nat.toDigits
  rw [digitsValue_foldl_core (n + 1) n [] (by omega)]
  rfl

theorem digitsValue_zeros (k : Nat) (ds : List Char) :
    digitsValue (List.replicate k '0' ++ ds) = digitsValue ds := by
  unfold digitsValue
  induction k with
  | zero => simp
  | succ k ih =>
    rw [List.replicate_succ, List.cons_append, List.foldl_cons]
    simpa using ih

theorem newName_injective (filetype : String) (i j : Nat)
    (h : newName filetype i = newName filetype j) : i = j := by
  unfold newName Sprintf06dDot at h
  have h1 := congrArg String.data h
  simp only [String.data_append] at h1
  have h2 := List.append_cancel_right h1
  have h3 := List.append_cancel_right h2
  have h4 := congrArg digitsValue h3
  rw [digitsValue_zeros, digitsValue_zeros, digitsValue_toDigits, digitsValue_toDigits] at h4
  exact h4

theorem Sprintf06dDot_value (i : Nat) : digitsValue (Sprintf06dDot i).data.dropLast = i := by
  unfold Sprintf06dDot
  simp only [List.dropLast_concat]
  rw [digitsValue_zeros, digitsValue_toDigits]

theorem Sprintf06dDot_length (i : Nat) (h : i < 1000000) : (Sprintf06dDot i).length = 7 := by
  have hlen : (Nat.toDigits 10 i).length ≤ 6 := Nat.repr_length i 6 (by decide) h
  unfold Sprintf06dDot
  simp only [String.length, List.length_append, List.length_replicate, List.length_singleton]
  omega

/-! ## Renaming in a directory -/

theorem lookup_filter_key (q : String → Bool) (fs : Dir) (x : String) :
    (fs.filter (fun p => q p.1)).lookup x = if q x = true then fs.lookup x else none := by
  induction fs with
  | nil => simp
  | cons kv rest ih =>
    obtain ⟨k, v⟩ := kv
    by_cases hk : q k = true
    · rw [List.filter_cons_of_pos (by simpa using hk)]
      by_cases hx : x = k
      · subst hx
        simp [List.lookup_cons, hk]
      · have hb : (x == k) = false := by simpa using hx
        simp only [List.lookup_cons, hb]
        exact ih
    · rw [List.filter_cons_of_neg (by simpa using hk)]
      by_cases hx : x = k
      · subst hx
        simp only [hk, if_false] at ih ⊢
        exact ih
      · have hb : (x == k) = false := by simpa using hx
        simp only [List.lookup_cons, hb]
        exact ih

theorem Dir.read_rename (fs : Dir) (o n x : String) :
    (fs.rename o n).read x =
      if fs.read o = none then fs.read x
      else if x = n then fs.read o
      else if x = o then none
      else fs.read x := by
  unfold Dir.rename Dir.read
  cases h : fs.lookup o with
  | none => simp
  | some c =>
    simp only [reduceCtorEq, if_false]
    by_cases hxn : x = n
    · subst hxn
      simp [List.lookup_cons]
    · have hb : (x == n) = false := by simpa using hxn
      simp only [List.lookup_cons, hb, hxn, if_false]
      have := lookup_filter_key (fun k => decide (k ≠ o ∧ k ≠ n)) fs x
      simp only [decide_eq_true_eq] at this
      rw [this]
      by_cases hxo : x = o
      · simp [hxo]
      · simp [hxo, hxn]

theorem renamePairs_cons (fs : Dir) (p : String × String) (rest : List (String × String)) :
    renamePairs fs (p :: rest) = renamePairs (fs.rename p.1 p.2) rest := rfl

theorem read_renamePairs : ∀ (pairs : List (String × String)) (fs : Dir),
    (pairs.map Prod.fst).Nodup → (pairs.map Prod.snd).Nodup →
    (∀ s ∈ pairs.map Prod.fst, fs.read s ≠ none) →
    (∀ s ∈ pairs.map Prod.fst, s ∉ pairs.map Prod.snd) →
    ∀ x, (renamePairs fs pairs).read x =
      match pairs.find? (fun p => decide (p.2 = x)) with
      | some p => fs.read p.1
      | none => if x ∈ pairs.map Prod.fst then none else fs.read x
  | [], fs, _, _, _, _, x => by simp [renamePairs]
  | (s, d) :: rest, fs, hs, hd, hex, hdisj, x => by
    rw [List.map_cons, List.nodup_cons] at hs hd
    have hsex : fs.read s ≠ none := hex s (by simp)
    have rd : ∀ y, (fs.rename s d).read y =
        if y = d then fs.read s else if y = s then none else fs.read y := by
      intro y
      rw [Dir.read_rename]
      simp [hsex]
    have hsd : ∀ y ∈ rest.map Prod.fst, y ≠ s ∧ y ≠ d := by
      intro y hy
      refine ⟨fun h => hs.1 (h ▸ hy), fun h => ?_⟩
      exact hdisj y (by simp [List.mem_map] at hy ⊢; exact Or.inr hy) (by simp [h])
    have ih := read_renamePairs rest (fs.rename s d) hs.2 hd.2
      (by
        intro y hy
        rw [rd]
        obtain ⟨h1, h2⟩ := hsd y hy
        simp only [h1, h2, if_false]
        exact hex y (by simp only [List.map_cons, List.mem_cons]; exact Or.inr hy))
      (by
        intro y hy hy2
        exact hdisj y (by simp only [List.map_cons, List.mem_cons]; exact Or.inr hy)
          (by simp only [List.map_cons, List.mem_cons]; exact Or.inr hy2))
      x
    rw [renamePairs_cons, ih]
    by_cases hxd : d = x
    · subst hxd
      have hnone : rest.find? (fun p => decide (p.2 = d)) = none := by
        rw [List.find?_eq_none]
        intro p hp hpd
        simp only [decide_eq_true_eq] at hpd
        exact hd.1 (List.mem_map.mpr ⟨p, hp, hpd⟩)
      have hdfst : d ∉ rest.map Prod.fst := by
        intro h
        exact hdisj d (by simp only [List.map_cons, List.mem_cons]; exact Or.inr h) (by simp)
      simp [List.find?_cons, hnone, hdfst, rd]
    · have hdec : decide (d = x) = false := by simpa using hxd
      simp only [List.find?_cons, hdec]
      cases hf : rest.find? (fun p => decide (p.2 = x)) with
      | some p =>
        have hp : p ∈ rest := List.mem_of_find?_eq_some hf
        obtain ⟨h1, h2⟩ := hsd p.1 (List.mem_map.mpr ⟨p, hp, rfl⟩)
        simp [rd, h1, h2]
      | none =>
        simp only [List.map_cons, List.mem_cons]
        by_cases hxr : x ∈ rest.map Prod.fst
        · simp [hxr]
        · have hxd2 : ¬ x = d := fun h => hxd h.symm
          by_cases hxs : x = s
          · subst hxs
            simp [rd, hxd2]
          · simp [hxr, hxs, rd, hxd2]



/-! ## The map and the renames of `handleInputFiles` -/

theorem GoMap.assign_fresh (m : GoMap) (key value : String) (h : ∀ p ∈ m, p.1 ≠ key) :
    m.assign key value = m ++ [(key, value)] := by
  unfold GoMap.assign
  have hany : m.any (fun p => p.1 == key) = false := by
    rw [List.any_eq_false]
    intro p hp
    simpa using h p hp
  simp [hany]

theorem renameLoop_eq (filetype : String) :
    ∀ (entries : List String) (i : Nat) (m : GoMap) (w : World),
    (∀ p ∈ m, ∃ k, k < i ∧ p.1 = newName filetype k) →
    renameLoop filetype entries i (m, w) =
      (m ++ (entries.enumFrom i).map (fun p => (newName filetype p.1, p.2)),
        { fs := renamePairs w.fs ((entries.enumFrom i).map (fun p => (p.2, newName filetype p.1)))
          trace := w.trace ++
            (entries.enumFrom i).map (fun p => Event.rename p.2 (newName filetype p.1))
          out := w.out })
  | [], i, m, w, _ => by simp [renameLoop, renamePairs]
  | cur :: rest, i, m, w, hm => by
    have hfresh : ∀ p ∈ m, p.1 ≠ newName filetype i := by
      intro p hp h
      obtain ⟨k, hk, hpk⟩ := hm p hp
      have := newName_injective filetype k i (hpk ▸ h)
      omega
    have hm2 : ∀ p ∈ m ++ [(newName filetype i, cur)], ∃ k, k < i + 1 ∧ p.1 = newName filetype k := by
      intro p hp
      rcases List.mem_append.mp hp with hp | hp
      · obtain ⟨k, hk, hpk⟩ := hm p hp
        exact ⟨k, by omega, hpk⟩
      · simp only [List.mem_singleton] at hp
        exact ⟨i, by omega, by rw [hp]⟩
    simp only [renameLoop]
    rw [GoMap.assign_fresh m _ _ hfresh, renameLoop_eq filetype rest (i + 1) _ _ hm2]
    simp [World.rename, renamePairs, List.append_assoc]

theorem validateLoop_toConvert (L : GoLib) (E : Env) (filetype : String) (dlog : Bool)
    (fs : Dir) :
    (validateLoop L E.probe filetype dlog (ReadDir fs)).toConvert = acceptedFiles L E filetype fs := by
  show validateFiles L E.probe filetype dlog (ReadDir fs) = validateFiles L E.probe filetype true (ReadDir fs)
  rw [validateFiles_filter, validateFiles_filter]

theorem handleInputFiles_map (L : GoLib) (E : Env) (hE : E.readDirErr = none)
    (filetype : String) (dlog : Bool) (w : World) :
    (handleInputFiles L E filetype dlog w).1 = indexedMap filetype (sortedEntries L E filetype w.fs) := by
  unfold handleInputFiles
  simp only [hE]
  rw [renameLoop_eq filetype _ 0 [] _ (by simp), validateLoop_toConvert]
  rfl

theorem handleInputFiles_fs (L : GoLib) (E : Env) (hE : E.readDirErr = none)
    (filetype : String) (dlog : Bool) (w : World) :
    (handleInputFiles L E filetype dlog w).2.fs =
      renamePairs w.fs (((sortedEntries L E filetype w.fs).enumFrom 0).map
        (fun p => (p.2, newName filetype p.1))) := by
  unfold handleInputFiles
  simp only [hE]
  rw [renameLoop_eq filetype _ 0 [] _ (by simp), validateLoop_toConvert]
  rfl

theorem handleInputFiles_trace (L : GoLib) (E : Env) (hE : E.readDirErr = none)
    (filetype : String) (dlog : Bool) (w : World) :
    (handleInputFiles L E filetype dlog w).2.trace =
      w.trace ++ forwardEvents filetype (sortedEntries L E filetype w.fs) := by
  unfold handleInputFiles
  simp only [hE]
  rw [renameLoop_eq filetype _ 0 [] _ (by simp), validateLoop_toConvert]
  rfl

theorem handleInputFiles_failed (L : GoLib) (E : Env) (err : String)
    (hE : E.readDirErr = some err) (filetype : String) (dlog : Bool) (w : World) :
    handleInputFiles L E filetype dlog w = ([], w.print err dlog) := by
  unfold handleInputFiles
  simp only [hE]

theorem nameBackLoop_eq : ∀ (order : List (String × String)) (w : World),
    nameBackLoop order w =
      { fs := renamePairs w.fs order, trace := w.trace ++ backEvents order, out := w.out }
  | [], w => by simp [nameBackLoop, renamePairs, backEvents]
  | (temp, og) :: rest, w => by
    simp only [nameBackLoop]
    rw [nameBackLoop_eq rest]
    simp [World.rename, renamePairs, backEvents]

theorem indexedMap_length (filetype : String) (entries : List String) :
    (indexedMap filetype entries).length = entries.length := by
  simp [indexedMap]

theorem indexedMap_keys (filetype : String) (entries : List String) :
    (indexedMap filetype entries).map Prod.fst =
      (List.range entries.length).map (newName filetype) := by
  unfold indexedMap
  rw [List.map_map, List.enumFrom_eq_zip_range', ← List.range_eq_range']
  apply List.ext_getElem
  · simp
  · intro i h1 h2
    simp

theorem indexedMap_values (filetype : String) (entries : List String) :
    (indexedMap filetype entries).map Prod.snd = entries := by
  unfold indexedMap
  rw [List.map_map]
  exact List.enumFrom_map_snd 0 entries

theorem indexedMap_keys_nodup (filetype : String) (entries : List String) :
    ((indexedMap filetype entries).map Prod.fst).Nodup := by
  rw [indexedMap_keys]
  exact List.Nodup.map (fun i j h => newName_injective filetype i j h) (List.nodup_range _)

theorem lookup_enumFrom (filetype : String) : ∀ (entries : List String) (k i : Nat),
    ((entries.enumFrom k).map (fun p => (newName filetype p.1, p.2))).lookup (newName filetype i) =
      if k ≤ i then entries[i - k]? else none
  | [], k, i => by simp
  | e :: rest, k, i => by
    simp only [List.enumFrom_cons, List.map_cons, List.lookup_cons]
    by_cases hik : i = k
    · subst hik
      simp
    · have hb : (newName filetype i == newName filetype k) = false := by
        simpa using fun h => hik (newName_injective filetype i k h)
      simp only [hb]
      rw [lookup_enumFrom filetype rest (k + 1) i]
      by_cases hle : k ≤ i
      · have h1 : k + 1 ≤ i := by omega
        have h2 : i - k = (i - (k + 1)) + 1 := by omega
        simp [hle, h1, h2]
      · have h1 : ¬ k + 1 ≤ i := by omega
        simp [hle, h1]

theorem indexedMap_lookup (filetype : String) (entries : List String) (i : Nat) :
    (indexedMap filetype entries).lookup (newName filetype i) = entries[i]? := by
  unfold indexedMap
  rw [lookup_enumFrom]
  simp

theorem filterMap_range_getElem (l : List String) :
    (List.range l.length).filterMap (fun i => l[i]?) = l := by
  induction l using List.reverseRecOn with
  | nil => rfl
  | append_singleton init x ih =>
    rw [List.length_append, List.length_singleton, List.range_succ, List.filterMap_append]
    have h : (List.range init.length).filterMap (fun i => (init ++ [x])[i]?) =
        (List.range init.length).filterMap (fun i => init[i]?) := by
      apply List.filterMap_congr
      intro i hi
      rw [List.mem_range] at hi
      simp [List.getElem?_append_left hi]
    rw [h, ih]
    simp

theorem assignedOrder_indexedMap (filetype : String) (entries : List String) :
    assignedOrder filetype (indexedMap filetype entries) = entries := by
  unfold assignedOrder
  rw [indexedMap_length]
  simp only [indexedMap_lookup]
  exact filterMap_range_getElem entries



/-! ## The library -/

theorem cmpCompare_neg (x y : String) : cmpCompare x y < 0 ↔ x.data < y.data := by
  unfold cmpCompare
  by_cases h1 : x.data < y.data
  · simp [h1]
  · by_cases h2 : y.data < x.data
    · simp [h1, h2]
    · simp [h1, h2]

theorem lowerCmp_strictWeak (L : GoLib) : StrictWeak (lowerCmp L) where
  irrefl := fun a => by
    unfold lowerCmp
    rw [cmpCompare_neg]
    exact lt_irrefl _
  trans := fun a b c => by
    unfold lowerCmp
    simp only [cmpCompare_neg]
    exact lt_trans
  incomparable_trans := fun a b c => by
    unfold lowerCmp
    simp only [cmpCompare_neg, not_lt]
    intro h1 h2 h3 h4
    exact ⟨le_trans h3 h1, le_trans h2 h4⟩

theorem strictWeak_total (cmp : String → String → Int) (h : StrictWeak cmp) (a b : String) :
    ¬ cmp b a < 0 ∨ ¬ cmp a b < 0 := by
  by_cases hba : cmp b a < 0
  · right
    intro hab
    exact h.irrefl a (h.trans a b a hab hba)
  · exact Or.inl hba

theorem strictWeak_not_lt_trans (cmp : String → String → Int) (h : StrictWeak cmp)
    (a b c : String) (hab : ¬ cmp b a < 0) (hbc : ¬ cmp c b < 0) : ¬ cmp c a < 0 := by
  intro hca
  have hbc2 : ¬ cmp b c < 0 := fun hb => hab (h.trans b c a hb hca)
  have hab2 : ¬ cmp a b < 0 := fun ha => hbc (h.trans c a b hca ha)
  exact (h.incomparable_trans a b c hab2 hab hbc2 hbc).2 hca

theorem stableLib_documented : stableLib.Documented where
  lower_ascii := fun _ _ => rfl
  sort_perm := fun cmp l => List.perm_insertionSort _ l
  sort_sorted := by
    intro cmp hcmp l
    have htotal : IsTotal String (fun a b => ¬ cmp b a < 0) :=
      ⟨fun a b => strictWeak_total cmp hcmp a b⟩
    have htrans : IsTrans String (fun a b => ¬ cmp b a < 0) :=
      ⟨fun a b c hab hbc => strictWeak_not_lt_trans cmp hcmp a b c hab hbc⟩
    exact List.sorted_insertionSort (fun a b => ¬ cmp b a < 0) l

theorem mirrorLib_documented : mirrorLib.Documented where
  lower_ascii := fun _ _ => rfl
  sort_perm := fun _ l => (List.perm_insertionSort _ l.reverse).trans (List.reverse_perm l)
  sort_sorted := fun cmp hcmp l => stableLib_documented.sort_sorted cmp hcmp l.reverse

theorem ToLower_ascii (L : GoLib) (hL : L.Documented) (s : String)
    (h : ∀ c ∈ s.data, c.toNat < 128) : ToLower L s = ToLower stableLib s := by
  unfold ToLower
  congr 1
  apply List.map_congr_left
  intro c hc
  exact hL.lower_ascii c (h c hc)

/-! ## The sort of Go's library returns a permutation -/

theorem swapAt_perm (data : List String) (i j : Nat) : (swapAt data i j).Perm data := by
  unfold swapAt
  split
  · rename_i h
    obtain ⟨hi, hj⟩ := h
    rw [List.perm_iff_count]
    intro a
    by_cases hij : i = j
    · subst hij
      rw [List.set_set, List.getD_eq_getElem _ _ hi, List.count_set _ _ _ _ hi]
      have h1 : (if (data[i] == a) = true then 1 else 0) ≤ List.count a data := by
        split
        · rename_i h
          have : data[i] = a := by simpa using h
          exact List.count_pos_iff.mpr (this ▸ List.getElem_mem hi)
        · exact Nat.zero_le _
      omega
    · rw [List.count_set _ _ _ _ (by simpa using hj), List.count_set _ _ _ _ hi]
      simp only [List.getD_eq_getElem _ _ hi, List.getD_eq_getElem _ _ hj,
        List.getElem_set_ne hij]
      have h1 : (if (data[i] == a) = true then 1 else 0) ≤ List.count a data := by
        split
        · rename_i h
          have : data[i] = a := by simpa using h
          exact List.count_pos_iff.mpr (this ▸ List.getElem_mem hi)
        · exact Nat.zero_le _
      have h2 : (if (data[j] == a) = true then 1 else 0) ≤ List.count a data := by
        split
        · rename_i h
          have : data[j] = a := by simpa using h
          exact List.count_pos_iff.mpr (this ▸ List.getElem_mem hj)
        · exact Nat.zero_le _
      omega
  · exact List.Perm.refl _



theorem foldl_perm {β : Type} (f : List String → β → List String)
    (hf : ∀ d x, (f d x).Perm d) : ∀ (xs : List β) (d : List String), (xs.foldl f d).Perm d
  | [], d => List.Perm.refl d
  | x :: xs, d => (foldl_perm f hf xs (f d x)).trans (hf d x)

theorem insertionInner_perm (cmp : String → String → Int) (a : Nat) :
    ∀ (j : Nat) (data : List String), (insertionInner cmp a j data).Perm data
  | 0, data => List.Perm.refl data
  | j + 1, data => by
    unfold insertionInner
    split
    · exact (insertionInner_perm cmp a j _).trans (swapAt_perm _ _ _)
    · exact List.Perm.refl data

theorem insertionSortCmpFunc_perm (cmp : String → String → Int) (data : List String)
    (a b : Nat) : (insertionSortCmpFunc cmp data a b).Perm data :=
  foldl_perm _ (fun d i => insertionInner_perm cmp a i d) _ _

theorem siftDownCmpFunc_perm (cmp : String → String → Int) (hi first : Nat) :
    ∀ (fuel : Nat) (data : List String) (root : Nat),
      (siftDownCmpFunc cmp hi first fuel data root).Perm data
  | 0, data, _ => List.Perm.refl data
  | fuel + 1, data, root => by
    unfold siftDownCmpFunc
    simp only
    split
    · exact List.Perm.refl data
    · split <;> split <;>
        first
        | exact List.Perm.refl data
        | exact (siftDownCmpFunc_perm cmp hi first fuel _ _).trans (swapAt_perm _ _ _)

theorem heapSortCmpFunc_perm (cmp : String → String → Int) (data : List String) (a b : Nat) :
    (heapSortCmpFunc cmp data a b).Perm data := by
  unfold heapSortCmpFunc
  simp only
  refine (foldl_perm _ (fun d i => ?_) _ _).trans (foldl_perm _ (fun d i => ?_) _ _)
  · exact (siftDownCmpFunc_perm cmp _ _ _ _ _).trans (swapAt_perm _ _ _)
  · exact siftDownCmpFunc_perm cmp _ _ _ _ _

theorem breakPatterns_foldl_perm (f : Nat × List String → Nat → Nat × List String)
    (hf : ∀ s i, (f s i).2.Perm s.2) :
    ∀ (xs : List Nat) (s : Nat × List String), (xs.foldl f s).2.Perm s.2
  | [], s => List.Perm.refl s.2
  | x :: xs, s => (breakPatterns_foldl_perm f hf xs (f s x)).trans (hf s x)

theorem breakPatternsCmpFunc_perm (data : List String) (a b : Nat) :
    (breakPatternsCmpFunc data a b).Perm data := by
  unfold breakPatternsCmpFunc
  simp only
  split
  · exact breakPatterns_foldl_perm _ (fun s i => swapAt_perm _ _ _) _ _
  · exact List.Perm.refl data

theorem reverseRangeCmpFunc_perm :
    ∀ (fuel : Nat) (data : List String) (i j : Nat),
      (reverseRangeCmpFunc fuel data i j).Perm data
  | 0, data, _, _ => List.Perm.refl data
  | fuel + 1, data, i, j => by
    unfold reverseRangeCmpFunc
    split
    · exact (reverseRangeCmpFunc_perm fuel _ _ _).trans (swapAt_perm _ _ _)
    · exact List.Perm.refl data

theorem partitionLoop_perm (cmp : String → String → Int) (a b : Nat) :
    ∀ (fuel : Nat) (data : List String) (i j : Nat),
      (partitionLoop cmp a b fuel data i j).1.Perm data
  | 0, data, _, _ => List.Perm.refl data
  | fuel + 1, data, i, j => by
    unfold partitionLoop
    simp only
    split
    · exact List.Perm.refl data
    · exact (partitionLoop_perm cmp a b fuel _ _ _).trans (swapAt_perm _ _ _)

theorem partitionCmpFunc_perm (cmp : String → String → Int) (data : List String)
    (a b pivot : Nat) : (partitionCmpFunc cmp data a b pivot).1.Perm data := by
  unfold partitionCmpFunc
  simp only
  split
  · exact (swapAt_perm _ _ _).trans (swapAt_perm _ _ _)
  · exact (swapAt_perm _ _ _).trans
      ((partitionLoop_perm cmp a b _ _ _ _).trans
        ((swapAt_perm _ _ _).trans (swapAt_perm _ _ _)))

theorem partitionEqualLoop_perm (cmp : String → String → Int) (a b : Nat) :
    ∀ (fuel : Nat) (data : List String) (i j : Nat),
      (partitionEqualLoop cmp a b fuel data i j).1.Perm data
  | 0, data, _, _ => List.Perm.refl data
  | fuel + 1, data, i, j => by
    unfold partitionEqualLoop
    simp only
    split
    · exact List.Perm.refl data
    · exact (partitionEqualLoop_perm cmp a b fuel _ _ _).trans (swapAt_perm _ _ _)

theorem partitionEqualCmpFunc_perm (cmp : String → String → Int) (data : List String)
    (a b pivot : Nat) : (partitionEqualCmpFunc cmp data a b pivot).1.Perm data :=
  (partitionEqualLoop_perm cmp a b _ _ _ _).trans (swapAt_perm _ _ _)

theorem shiftSmaller_perm (cmp : String → String → Int) :
    ∀ (j : Nat) (data : List String), (shiftSmaller cmp j data).Perm data
  | 0, data => List.Perm.refl data
  | j + 1, data => by
    unfold shiftSmaller
    split
    · exact List.Perm.refl data
    · exact (shiftSmaller_perm cmp j _).trans (swapAt_perm _ _ _)

theorem shiftGreater_perm (cmp : String → String → Int) (b : Nat) :
    ∀ (fuel j : Nat) (data : List String), (shiftGreater cmp b fuel j data).Perm data
  | 0, _, data => List.Perm.refl data
  | fuel + 1, j, data => by
    unfold shiftGreater
    split
    · split
      · exact List.Perm.refl data
      · exact (shiftGreater_perm cmp b fuel _ _).trans (swapAt_perm _ _ _)
    · exact List.Perm.refl data

theorem partialInsertionLoop_perm (cmp : String → String → Int) (a b : Nat) :
    ∀ (steps i : Nat) (data : List String),
      (partialInsertionLoop cmp a b steps i data).1.Perm data
  | 0, _, data => List.Perm.refl data
  | steps + 1, i, data => by
    unfold partialInsertionLoop
    simp only
    split
    · exact List.Perm.refl data
    · split
      · exact List.Perm.refl data
      · refine (partialInsertionLoop_perm cmp a b steps _ _).trans ?_
        have h1 := swapAt_perm data (scanSorted cmp data b b i) (scanSorted cmp data b b i - 1)
        have h2 : ∀ d : List String, (if 2 ≤ scanSorted cmp data b b i - a
            then shiftSmaller cmp (scanSorted cmp data b b i - 1) d else d).Perm d := by
          intro d
          split
          · exact shiftSmaller_perm cmp _ d
          · exact List.Perm.refl d
        have h3 : ∀ d : List String, (if 2 ≤ b - scanSorted cmp data b b i
            then shiftGreater cmp b b (scanSorted cmp data b b i + 1) d else d).Perm d := by
          intro d
          split
          · exact shiftGreater_perm cmp b b _ d
          · exact List.Perm.refl d
        exact (h3 _).trans ((h2 _).trans h1)

theorem partialInsertionSortCmpFunc_perm (cmp : String → String → Int) (data : List String)
    (a b : Nat) : (partialInsertionSortCmpFunc cmp data a b).1.Perm data :=
  partialInsertionLoop_perm cmp a b _ _ _

theorem pdqsortCmpFunc_perm (cmp : String → String → Int) :
    ∀ (fuel : Nat) (data : List String) (a b limit : Nat) (wasBalanced wasPartitioned : Bool),
      (pdqsortCmpFunc cmp fuel data a b limit wasBalanced wasPartitioned).Perm data
  | 0, data, _, _, _, _, _ => List.Perm.refl data
  | fuel + 1, data, a, b, limit, wasBalanced, wasPartitioned => by
    unfold pdqsortCmpFunc
    simp only
    have hbreak : (if wasBalanced = false then breakPatternsCmpFunc data a b else data).Perm
        data := by
      split
      · exact breakPatternsCmpFunc_perm data a b
      · exact List.Perm.refl data
    generalize (if wasBalanced = false then breakPatternsCmpFunc data a b else data) = d1
      at hbreak ⊢
    generalize (if wasBalanced = false then limit - 1 else limit) = limit1
    have hrev : (if (choosePivotCmpFunc cmp d1 a b).2 = SortedHint.decreasingHint
        then reverseRangeCmpFunc b d1 a (b - 1) else d1).Perm d1 := by
      split
      · exact reverseRangeCmpFunc_perm _ _ _ _
      · exact List.Perm.refl d1
    generalize (if (choosePivotCmpFunc cmp d1 a b).2 = SortedHint.decreasingHint
        then reverseRangeCmpFunc b d1 a (b - 1) else d1) = d2 at hrev ⊢
    generalize (if (choosePivotCmpFunc cmp d1 a b).2 = SortedHint.decreasingHint
        then b - 1 - ((choosePivotCmpFunc cmp d1 a b).1 - a)
        else (choosePivotCmpFunc cmp d1 a b).1) = pivot
    generalize (if (choosePivotCmpFunc cmp d1 a b).2 = SortedHint.decreasingHint
        then SortedHint.increasingHint else (choosePivotCmpFunc cmp d1 a b).2) = hint
    have hd2 : d2.Perm data := hrev.trans hbreak
    have hq : (if wasBalanced = true ∧ wasPartitioned = true ∧
        hint = SortedHint.increasingHint
        then partialInsertionSortCmpFunc cmp d2 a b else (d2, false)).1.Perm data := by
      split
      · exact (partialInsertionSortCmpFunc_perm cmp d2 a b).trans hd2
      · exact hd2
    generalize (if wasBalanced = true ∧ wasPartitioned = true ∧
        hint = SortedHint.increasingHint
        then partialInsertionSortCmpFunc cmp d2 a b else (d2, false)) = q at hq ⊢
    split
    · exact insertionSortCmpFunc_perm cmp data a b
    · split
      · exact heapSortCmpFunc_perm cmp data a b
      · split
        · exact hq
        · split
          · exact (pdqsortCmpFunc_perm cmp fuel _ _ _ _ _ _).trans
              ((partitionEqualCmpFunc_perm cmp _ _ _ _).trans hq)
          · split
            · exact (pdqsortCmpFunc_perm cmp fuel _ _ _ _ _ _).trans
                ((pdqsortCmpFunc_perm cmp fuel _ _ _ _ _ _).trans
                  ((partitionCmpFunc_perm cmp _ _ _ _).trans hq))
            · exact (pdqsortCmpFunc_perm cmp fuel _ _ _ _ _ _).trans
                ((pdqsortCmpFunc_perm cmp fuel _ _ _ _ _ _).trans
                  ((partitionCmpFunc_perm cmp _ _ _ _).trans hq))

theorem pdqSortFunc_perm (cmp : String → String → Int) (x : List String) :
    (pdqSortFunc cmp x).Perm x :=
  pdqsortCmpFunc_perm cmp _ _ _ _ _ _ _

/-! ## The fuel of the sort is enough -/

theorem scanUpLess_ge (cmp : String → String → Int) (data : List String) (a j : Nat) :
    ∀ (fuel i : Nat), i ≤ scanUpLess cmp data a j fuel i
  | 0, i => Nat.le_refl i
  | fuel + 1, i => by
    unfold scanUpLess
    split
    · exact Nat.le_trans (Nat.le_succ i) (scanUpLess_ge cmp data a j fuel (i + 1))
    · exact Nat.le_refl i

theorem scanDownNotLess_bounds (cmp : String → String → Int) (data : List String) (a i : Nat) :
    ∀ (fuel j : Nat), scanDownNotLess cmp data a i fuel j ≤ j ∧
      min j (i - 1) ≤ scanDownNotLess cmp data a i fuel j
  | 0, j => ⟨Nat.le_refl j, Nat.min_le_left _ _⟩
  | fuel + 1, j => by
    unfold scanDownNotLess
    split
    · rename_i h
      obtain ⟨h1, h2⟩ := scanDownNotLess_bounds cmp data a i fuel (j - 1)
      have hij := h.1
      constructor
      · omega
      · have : min (j - 1) (i - 1) = i - 1 := by omega
        have : min j (i - 1) = i - 1 := by omega
        omega
    · exact ⟨Nat.le_refl j, Nat.min_le_left _ _⟩

theorem partitionLoop_bounds (cmp : String → String → Int) (a b : Nat) :
    ∀ (fuel : Nat) (data : List String) (i j : Nat),
      (partitionLoop cmp a b fuel data i j).2 ≤ j ∧
      min j (i - 1) ≤ (partitionLoop cmp a b fuel data i j).2
  | 0, _, _, j => ⟨Nat.le_refl j, Nat.min_le_left _ _⟩
  | fuel + 1, data, i, j => by
    unfold partitionLoop
    simp only
    have hi := scanUpLess_ge cmp data a j b i
    obtain ⟨hj1, hj2⟩ := scanDownNotLess_bounds cmp data a (scanUpLess cmp data a j b i) b j
    split
    · constructor
      · exact hj1
      · omega
    · rename_i hlt
      obtain ⟨h1, h2⟩ := partitionLoop_bounds cmp a b fuel
        (swapAt data (scanUpLess cmp data a j b i)
          (scanDownNotLess cmp data a (scanUpLess cmp data a j b i) b j))
        (scanUpLess cmp data a j b i + 1)
        (scanDownNotLess cmp data a (scanUpLess cmp data a j b i) b j - 1)
      constructor
      · omega
      · omega

theorem partitionCmpFunc_bounds (cmp : String → String → Int) (data : List String)
    (a b pivot : Nat) (hab : a < b) :
    a ≤ (partitionCmpFunc cmp data a b pivot).2.1 ∧
      (partitionCmpFunc cmp data a b pivot).2.1 < b := by
  unfold partitionCmpFunc
  simp only
  have hi := scanUpLess_ge cmp (swapAt data a pivot) a (b - 1) b (a + 1)
  obtain ⟨hj1, hj2⟩ := scanDownNotLess_bounds cmp (swapAt data a pivot) a
    (scanUpLess cmp (swapAt data a pivot) a (b - 1) b (a + 1)) b (b - 1)
  split
  · simp only
    omega
  · rename_i hlt
    obtain ⟨h1, h2⟩ := partitionLoop_bounds cmp a b b
      (swapAt (swapAt data a pivot) (scanUpLess cmp (swapAt data a pivot) a (b - 1) b (a + 1))
        (scanDownNotLess cmp (swapAt data a pivot) a
          (scanUpLess cmp (swapAt data a pivot) a (b - 1) b (a + 1)) b (b - 1)))
      (scanUpLess cmp (swapAt data a pivot) a (b - 1) b (a + 1) + 1)
      (scanDownNotLess cmp (swapAt data a pivot) a
        (scanUpLess cmp (swapAt data a pivot) a (b - 1) b (a + 1)) b (b - 1) - 1)
    simp only
    omega

theorem scanUpNotGreater_ge (cmp : String → String → Int) (data : List String) (a j : Nat) :
    ∀ (fuel i : Nat), i ≤ scanUpNotGreater cmp data a j fuel i
  | 0, i => Nat.le_refl i
  | fuel + 1, i => by
    unfold scanUpNotGreater
    split
    · exact Nat.le_trans (Nat.le_succ i) (scanUpNotGreater_ge cmp data a j fuel (i + 1))
    · exact Nat.le_refl i

theorem partitionEqualLoop_ge (cmp : String → String → Int) (a b : Nat) :
    ∀ (fuel : Nat) (data : List String) (i j : Nat),
      i ≤ (partitionEqualLoop cmp a b fuel data i j).2
  | 0, _, i, _ => Nat.le_refl i
  | fuel + 1, data, i, j => by
    unfold partitionEqualLoop
    simp only
    have hi := scanUpNotGreater_ge cmp data a j b i
    split
    · exact hi
    · have := partitionEqualLoop_ge cmp a b fuel
        (swapAt data (scanUpNotGreater cmp data a j b i)
          (scanDownGreater cmp data a (scanUpNotGreater cmp data a j b i) b j))
        (scanUpNotGreater cmp data a j b i + 1)
        (scanDownGreater cmp data a (scanUpNotGreater cmp data a j b i) b j - 1)
      omega

theorem partitionEqualCmpFunc_gt (cmp : String → String → Int) (data : List String)
    (a b pivot : Nat) : a < (partitionEqualCmpFunc cmp data a b pivot).2 :=
  partitionEqualLoop_ge cmp a b b (swapAt data a pivot) (a + 1) (b - 1)

theorem pdqsortCmpFunc_fuel (cmp : String → String → Int) :
    ∀ (fuel1 fuel2 : Nat) (data : List String) (a b limit : Nat)
      (wasBalanced wasPartitioned : Bool), b - a < fuel1 → b - a < fuel2 →
      pdqsortCmpFunc cmp fuel1 data a b limit wasBalanced wasPartitioned =
        pdqsortCmpFunc cmp fuel2 data a b limit wasBalanced wasPartitioned
  | 0, _, _, _, _, _, _, _, h1, _ => absurd h1 (Nat.not_lt_zero _)
  | _ + 1, 0, _, _, _, _, _, _, _, h2 => absurd h2 (Nat.not_lt_zero _)
  | fuel1 + 1, fuel2 + 1, data, a, b, limit, wasBalanced, wasPartitioned, h1, h2 => by
    unfold pdqsortCmpFunc
    simp only
    generalize (if wasBalanced = false then breakPatternsCmpFunc data a b else data) = d1
    generalize (if wasBalanced = false then limit - 1 else limit) = limit1
    generalize (if (choosePivotCmpFunc cmp d1 a b).2 = SortedHint.decreasingHint
        then reverseRangeCmpFunc b d1 a (b - 1) else d1) = d2
    generalize (if (choosePivotCmpFunc cmp d1 a b).2 = SortedHint.decreasingHint
        then b - 1 - ((choosePivotCmpFunc cmp d1 a b).1 - a)
        else (choosePivotCmpFunc cmp d1 a b).1) = pivot
    generalize (if (choosePivotCmpFunc cmp d1 a b).2 = SortedHint.decreasingHint
        then SortedHint.increasingHint else (choosePivotCmpFunc cmp d1 a b).2) = hint
    generalize (if wasBalanced = true ∧ wasPartitioned = true ∧
        hint = SortedHint.increasingHint
        then partialInsertionSortCmpFunc cmp d2 a b else (d2, false)) = q
    split
    · rfl
    · rename_i hlen
      have hab : a < b := by omega
      split
      · rfl
      · split
        · rfl
        · split
          · have hgt := partitionEqualCmpFunc_gt cmp q.1 a b pivot
            exact pdqsortCmpFunc_fuel cmp fuel1 fuel2 _ _ _ _ _ _ (by omega) (by omega)
          · obtain ⟨hlo, hhi⟩ := partitionCmpFunc_bounds cmp q.1 a b pivot hab
            split
            · rw [pdqsortCmpFunc_fuel cmp fuel1 fuel2 (partitionCmpFunc cmp q.1 a b pivot).1 a
                (partitionCmpFunc cmp q.1 a b pivot).2.1 limit1 true true (by omega) (by omega)]
              exact pdqsortCmpFunc_fuel cmp fuel1 fuel2 _ _ _ _ _ _ (by omega) (by omega)
            · rw [pdqsortCmpFunc_fuel cmp fuel1 fuel2 (partitionCmpFunc cmp q.1 a b pivot).1
                ((partitionCmpFunc cmp q.1 a b pivot).2.1 + 1) b limit1 true true
                (by omega) (by omega)]
              exact pdqsortCmpFunc_fuel cmp fuel1 fuel2 _ _ _ _ _ _ (by omega) (by omega)

theorem pdqSortFunc_fuel (cmp : String → String → Int) (x : List String) (fuel : Nat)
    (h : x.length < fuel) :
    pdqsortCmpFunc cmp fuel x 0 x.length (bitsLen x.length) true true = pdqSortFunc cmp x :=
  pdqsortCmpFunc_fuel cmp fuel (x.length + 1) x 0 x.length _ true true (by omega) (by omega)

theorem pdqLib_permutes : pdqLib.Permutes := fun cmp l => pdqSortFunc_perm cmp l

/-! ## The listing and the accepted files -/

theorem ReadDir_perm (fs : Dir) : (ReadDir fs).Perm (fs.map Prod.fst) :=
  List.perm_insertionSort _ _

theorem acceptedFiles_sublist (L : GoLib) (E : Env) (filetype : String) (fs : Dir) :
    (acceptedFiles L E filetype fs).Sublist (ReadDir fs) := by
  unfold acceptedFiles
  rw [validateFiles_filter]
  exact List.filter_sublist _

theorem sortedEntries_perm (L : GoLib) (hL : L.Permutes) (E : Env) (filetype : String)
    (fs : Dir) : (sortedEntries L E filetype fs).Perm (acceptedFiles L E filetype fs) :=
  hL _ _

theorem sortedEntries_length (L : GoLib) (hL : L.Permutes) (E : Env) (filetype : String)
    (fs : Dir) : (sortedEntries L E filetype fs).length = (acceptedFiles L E filetype fs).length :=
  (sortedEntries_perm L hL E filetype fs).length_eq

theorem lookup_ne_none_of_mem (fs : Dir) (k : String) (h : k ∈ fs.map Prod.fst) :
    fs.lookup k ≠ none := by
  induction fs with
  | nil => simp at h
  | cons kv rest ih =>
    obtain ⟨k', v⟩ := kv
    by_cases hk : k = k'
    · subst hk
      simp [List.lookup_cons]
    · have hb : (k == k') = false := by simpa using hk
      simp only [List.lookup_cons, hb]
      apply ih
      simpa [hk] using h

theorem sortedEntries_exist (L : GoLib) (hL : L.Permutes) (E : Env) (filetype : String)
    (fs : Dir) (v : String) (hv : v ∈ sortedEntries L E filetype fs) : fs.read v ≠ none := by
  apply lookup_ne_none_of_mem
  have h1 := (sortedEntries_perm L hL E filetype fs).mem_iff.mp hv
  have h2 := (acceptedFiles_sublist L E filetype fs).subset h1
  exact (ReadDir_perm fs).mem_iff.mp h2

theorem sortedEntries_nodup (L : GoLib) (hL : L.Permutes) (E : Env) (filetype : String)
    (fs : Dir) (hfs : (fs.map Prod.fst).Nodup) : (sortedEntries L E filetype fs).Nodup := by
  rw [(sortedEntries_perm L hL E filetype fs).nodup_iff]
  exact List.Nodup.sublist (acceptedFiles_sublist L E filetype fs)
    ((ReadDir_perm fs).nodup_iff.mpr hfs)

/-! ## Sequential names -/

/-- C2. When the directory can be listed, the map returned by `handleInputFiles` has as many
keys as there are accepted files; its keys are pairwise distinct and are exactly the names
`fmt.Sprintf("%06d.", i) + filetype` for the indices `i` below that number, starting with
`000000.` followed by the extension; and the key of index `i` maps to the `i`-th name of the
sorted slice. -/
theorem handleInputFiles_sequential (L : GoLib) (hL : L.Permutes) (E : Env)
    (hE : E.readDirErr = none) (filetype : String) (dlog : Bool) (w : World) :
    (handleInputFiles L E filetype dlog w).1.length = (acceptedFiles L E filetype w.fs).length ∧
    ((handleInputFiles L E filetype dlog w).1.map Prod.fst).Nodup ∧
    (∀ key : String, key ∈ (handleInputFiles L E filetype dlog w).1.map Prod.fst ↔
      ∃ i, i < (acceptedFiles L E filetype w.fs).length ∧ key = newName filetype i) ∧
    (∀ i j : Nat, newName filetype i = newName filetype j → i = j) ∧
    newName filetype 0 = "000000." ++ filetype ∧
    (∀ i : Nat, newName filetype i = Sprintf06dDot i ++ filetype ∧
      digitsValue (Sprintf06dDot i).data.dropLast = i ∧
      (i < 1000000 → (Sprintf06dDot i).length = 7)) ∧
    (∀ i : Nat, (handleInputFiles L E filetype dlog w).1.lookup (newName filetype i) =
      (L.SortFunc (lowerCmp L) (acceptedFiles L E filetype w.fs))[i]?) := by
  rw [handleInputFiles_map L E hE]
  refine ⟨?_, indexedMap_keys_nodup _ _, ?_, newName_injective filetype, rfl,
    fun i => ⟨rfl, Sprintf06dDot_value i, Sprintf06dDot_length i⟩, ?_⟩
  · rw [indexedMap_length, sortedEntries_length L hL]
  · intro key
    rw [indexedMap_keys, sortedEntries_length L hL, List.mem_map]
    constructor
    · rintro ⟨i, hi, rfl⟩
      exact ⟨i, List.mem_range.mp hi, rfl⟩
    · rintro ⟨i, hi, rfl⟩
      exact ⟨i, List.mem_range.mpr hi, rfl⟩
  · intro i
    rw [indexedMap_lookup]
    rfl

/-- C2 at a directory with the two images `a.png` and `B.png`. -/
theorem handleInputFiles_sequential_two :
    (acceptedFiles pdqLib (plainEnv true id) "png" twoImagesDir).length = 2 ∧
    (handleInputFiles pdqLib (plainEnv true id) "png" true (startIn twoImagesDir)).1.length =
      (acceptedFiles pdqLib (plainEnv true id) "png" (startIn twoImagesDir).fs).length ∧
    (handleInputFiles pdqLib (plainEnv true id) "png" true (startIn twoImagesDir)).1 =
      [("000000.png", "a.png"), ("000001.png", "B.png")] :=
  ⟨by decide,
    (handleInputFiles_sequential pdqLib pdqLib_permutes (plainEnv true id) rfl "png" true
      (startIn twoImagesDir)).1,
    by decide⟩



/-! ## The order of the sequence -/

theorem sorted_pair (L : GoLib) (hL : L.Documented) (l : List String)
    (hp : l.Perm ["B.png", "a.png"])
    (hs : l.Pairwise (fun a b => (ToLower L a).data ≤ (ToLower L b).data)) :
    l = ["a.png", "B.png"] := by
  have hlen := hp.length_eq
  have hnd : l.Nodup := hp.nodup_iff.mpr (by decide)
  match l, hp, hs, hlen, hnd with
  | [x, y], hp, hs, _, hnd =>
    have hx : x ∈ ["B.png", "a.png"] := hp.subset (by simp)
    have hy : y ∈ ["B.png", "a.png"] := hp.subset (by simp)
    have hxy : x ≠ y := by
      intro h
      simp [h] at hnd
    have hle : (ToLower L x).data ≤ (ToLower L y).data := by
      simpa using hs
    simp only [List.mem_cons, List.mem_singleton, List.not_mem_nil, or_false] at hx hy
    rcases hx with rfl | rfl <;> rcases hy with rfl | rfl
    · exact absurd rfl hxy
    · exfalso
      rw [ToLower_ascii L hL "B.png" (by decide), ToLower_ascii L hL "a.png" (by decide)] at hle
      revert hle
      decide
    · rfl
    · exact absurd rfl hxy
  | [], _, _, hlen, _ => simp at hlen
  | [_], _, _, hlen, _ => simp at hlen
  | _ :: _ :: _ :: _, _, _, hlen, _ => simp at hlen

set_option maxRecDepth 1000000 in
/-- C3, as the claim has it, fails with the sort Go ships: in a directory of thirteen images
the listing has `XA.png` before `Xa.png`, the two names are equal once lowercased, and
`handleInputFiles` numbers `Xa.png` before `XA.png`. A sort that meets the documentation of
`slices.SortFunc` is free to do so: `mirrorLib` gives the same numbering. -/
theorem handleInputFiles_order_unstable :
    ReadDir thirteenDir =
      ["XA.png", "Xa.png", "a.png", "b.png", "c.png", "d.png", "e.png", "f.png", "g.png",
        "h.png", "i.png", "j.png", "k.png"] ∧
    ToLower pdqLib "XA.png" = ToLower pdqLib "Xa.png" ∧
    assignedOrder "png"
        (handleInputFiles pdqLib (plainEnv true id) "png" true (startIn thirteenDir)).1 =
      ["a.png", "b.png", "c.png", "d.png", "e.png", "f.png", "g.png", "h.png", "i.png",
        "j.png", "k.png", "Xa.png", "XA.png"] ∧
    mirrorLib.Documented ∧
    assignedOrder "png"
        (handleInputFiles mirrorLib (plainEnv true id) "png" true (startIn thirteenDir)).1 =
      ["a.png", "b.png", "c.png", "d.png", "e.png", "f.png", "g.png", "h.png", "i.png",
        "j.png", "k.png", "Xa.png", "XA.png"] := by
  refine ⟨by decide, by decide, ?_, mirrorLib_documented, ?_⟩
  · rw [handleInputFiles_map pdqLib (plainEnv true id) rfl, assignedOrder_indexedMap]
    decide
  · rw [handleInputFiles_map mirrorLib (plainEnv true id) rfl, assignedOrder_indexedMap]
    decide

/-- C3, amended. The order in which `handleInputFiles` assigns the sequence indices is the
slice `slices.SortFunc` returns for the accepted files: a permutation of them that is
non-decreasing in the lexicographic order of the lowercased names. The accepted files
`B.png`, `a.png` are ordered `a.png`, `B.png`. (Nothing is said of names that are equal once
lowercased.) -/
theorem handleInputFiles_order (L : GoLib) (hL : L.Documented) (E : Env)
    (hE : E.readDirErr = none) (filetype : String) (dlog : Bool) (w : World) :
    assignedOrder filetype (handleInputFiles L E filetype dlog w).1 =
      L.SortFunc (lowerCmp L) (acceptedFiles L E filetype w.fs) ∧
    (assignedOrder filetype (handleInputFiles L E filetype dlog w).1).Perm
      (acceptedFiles L E filetype w.fs) ∧
    (assignedOrder filetype (handleInputFiles L E filetype dlog w).1).Pairwise
      (fun a b => (ToLower L a).data ≤ (ToLower L b).data) ∧
    (acceptedFiles L E filetype w.fs = ["B.png", "a.png"] →
      assignedOrder filetype (handleInputFiles L E filetype dlog w).1 = ["a.png", "B.png"]) := by
  rw [handleInputFiles_map L E hE, assignedOrder_indexedMap]
  have hperm := sortedEntries_perm L hL.sort_perm E filetype w.fs
  have hsorted : (sortedEntries L E filetype w.fs).Pairwise
      (fun a b => (ToLower L a).data ≤ (ToLower L b).data) :=
    List.Pairwise.imp
      (fun h => not_lt.mp (fun hlt => h ((cmpCompare_neg _ _).mpr hlt)))
      (hL.sort_sorted (lowerCmp L) (lowerCmp_strictWeak L) _)
  refine ⟨rfl, hperm, hsorted, ?_⟩
  intro hacc
  exact sorted_pair L hL _ (hacc ▸ hperm) hsorted

/-- C3 at the directory with the images `a.png` and `B.png`, listed as `B.png`, `a.png`. -/
theorem handleInputFiles_order_two :
    acceptedFiles stableLib (plainEnv true id) "png" (startIn twoImagesDir).fs =
      ["B.png", "a.png"] ∧
    assignedOrder "png"
        (handleInputFiles stableLib (plainEnv true id) "png" true (startIn twoImagesDir)).1 =
      ["a.png", "B.png"] :=
  ⟨by decide,
    (handleInputFiles_order stableLib stableLib_documented (plainEnv true id) rfl "png" true
      (startIn twoImagesDir)).2.2.2 (by decide)⟩



/-! ## The run of `main` -/

theorem handleInputFiles_out_irrelevant (L : GoLib) (E : Env) (filetype : String) (dlog : Bool)
    (w : World) (out : List String) :
    (handleInputFiles L E filetype dlog { w with out := out }).1 =
        (handleInputFiles L E filetype dlog w).1 ∧
    (handleInputFiles L E filetype dlog { w with out := out }).2.fs =
        (handleInputFiles L E filetype dlog w).2.fs ∧
    (handleInputFiles L E filetype dlog { w with out := out }).2.trace =
        (handleInputFiles L E filetype dlog w).2.trace := by
  cases hE : E.readDirErr with
  | some err =>
    rw [handleInputFiles_failed L E err hE, handleInputFiles_failed L E err hE]
    exact ⟨rfl, rfl, rfl⟩
  | none =>
    rw [handleInputFiles_map L E hE, handleInputFiles_map L E hE, handleInputFiles_fs L E hE,
      handleInputFiles_fs L E hE, handleInputFiles_trace L E hE, handleInputFiles_trace L E hE]
    exact ⟨rfl, rfl, rfl⟩

theorem indexedMap_eq_nil (filetype : String) (entries : List String) :
    indexedMap filetype entries = [] ↔ entries = [] := by
  rw [← List.length_eq_zero, indexedMap_length, List.length_eq_zero]

/-- C9. When `validateFiles` accepts no file of the configured extension, or the directory
cannot be listed, `handleInputFiles` returns an empty map and renames nothing, and `main`
returns with status zero having run no command, renamed nothing and removed nothing: its
trace and the directory are as they were. -/
theorem main_without_files (L : GoLib) (hL : L.Permutes) (E : Env) (w : World)
    (h : E.readDirErr ≠ none ∨ acceptedFiles L E (setConfig L E.config).filetype w.fs = []) :
    (handleInputFiles L E (setConfig L E.config).filetype (setConfig L E.config).debug w).1 = [] ∧
    (handleInputFiles L E (setConfig L E.config).filetype (setConfig L E.config).debug w).2.fs
      = w.fs ∧
    (handleInputFiles L E (setConfig L E.config).filetype (setConfig L E.config).debug w).2.trace
      = w.trace ∧
    (main L E w).2 = 0 ∧ (main L E w).1.fs = w.fs ∧ (main L E w).1.trace = w.trace := by
  have key : (handleInputFiles L E (setConfig L E.config).filetype
        (setConfig L E.config).debug w).1 = [] ∧
      (handleInputFiles L E (setConfig L E.config).filetype
        (setConfig L E.config).debug w).2.fs = w.fs ∧
      (handleInputFiles L E (setConfig L E.config).filetype
        (setConfig L E.config).debug w).2.trace = w.trace := by
    cases hE : E.readDirErr with
    | some err =>
      rw [handleInputFiles_failed L E err hE]
      exact ⟨rfl, rfl, rfl⟩
    | none =>
      have hacc : acceptedFiles L E (setConfig L E.config).filetype w.fs = [] := by
        rcases h with h | h
        · exact absurd hE h
        · exact h
      have hes : sortedEntries L E (setConfig L E.config).filetype w.fs = [] :=
        List.Perm.eq_nil (hacc ▸ sortedEntries_perm L hL E _ w.fs)
      rw [handleInputFiles_map L E hE, handleInputFiles_fs L E hE, handleInputFiles_trace L E hE,
        hes]
      simp [indexedMap, renamePairs, forwardEvents]
  obtain ⟨k1, k2, k3⟩ := key
  obtain ⟨o1, o2, o3⟩ := handleInputFiles_out_irrelevant L E (setConfig L E.config).filetype
    (setConfig L E.config).debug w (w.out ++ setConfigOut (setConfig L E.config))
  refine ⟨k1, k2, k3, ?_⟩
  have hlen : (handleInputFiles L E (setConfig L E.config).filetype (setConfig L E.config).debug
      { w with out := w.out ++ setConfigOut (setConfig L E.config) }).1.length = 0 := by
    rw [o1, k1]
    rfl
  unfold main
  simp only [hlen, if_true, World.print]
  exact ⟨trivial, o2.trans k2, o3.trans k3⟩

/-- C9 at a directory whose only file is a text file. -/
theorem main_without_files_text :
    acceptedFiles pdqLib (plainEnv true id) "png" [("notes.txt", "n")] = [] ∧
    (main pdqLib (plainEnv true id) (startIn [("notes.txt", "n")])).2 = 0 ∧
    (main pdqLib (plainEnv true id) (startIn [("notes.txt", "n")])).1.trace = [] :=
  ⟨by decide,
    (main_without_files pdqLib pdqLib_permutes (plainEnv true id)
      (startIn [("notes.txt", "n")]) (Or.inr (by decide))).2.2.2.1,
    (main_without_files pdqLib pdqLib_permutes (plainEnv true id)
      (startIn [("notes.txt", "n")]) (Or.inr (by decide))).2.2.2.2.2⟩



theorem mainMap_ne_nil (L : GoLib) (hL : L.Permutes) (E : Env) (hE : E.readDirErr = none)
    (w : World) (hacc : acceptedFiles L E (setConfig L E.config).filetype w.fs ≠ []) :
    mainMap L E w ≠ [] := by
  unfold mainMap
  rw [handleInputFiles_map L E hE, Ne, indexedMap_eq_nil]
  intro hes
  apply hacc
  exact List.Perm.eq_nil (hes ▸ (sortedEntries_perm L hL E _ w.fs).symm)

/-- The part of `main` that follows `handleInputFiles`, as a function of what that returned. -/
theorem main_after_rename (L : GoLib) (E : Env) (hE : E.readDirErr = none) (w : World) :
    ∃ out : List String,
      main L E w =
        (fun (h : GoMap × World) =>
          if h.1.length = 0 then
            (h.2.print ("no files with type '" ++ (setConfig L E.config).filetype ++
              "' found. Exiting") (setConfig L E.config).debug, 0)
          else
            if (runCmd E (mainCmds L E).tileCmd (setConfig L E.config).debug h.2).1 = false then
              (nameBack E h.1
                (runCmd E (mainCmds L E).tileCmd (setConfig L E.config).debug h.2).2, 1)
            else
              (fun (tile palette : Bool × World) =>
                (fun (w3 : World) =>
                  (fun (w6 : World) =>
                    if (setConfig L E.config).debug = true then
                      ({ (w6.print "Press Enter to exit" (setConfig L E.config).debug) with
                          trace := w6.trace ++ [Event.scanStdin] }, 0)
                    else (w6, 0))
                  (delTmpFile "palette.png" palette.1 (setConfig L E.config).debug
                    (delTmpFile "tile.png" tile.1 (setConfig L E.config).debug
                      (nameBack E h.1 w3))))
                (if palette.1 = true then
                  if (runCmd E (mainCmds L E).gifCmd (setConfig L E.config).debug palette.2).1
                      = true then
                    (runCmd E (mainCmds L E).gifCmd (setConfig L E.config).debug
                      palette.2).2.print "output.gif generated" (setConfig L E.config).debug
                  else (runCmd E (mainCmds L E).gifCmd (setConfig L E.config).debug palette.2).2
                else palette.2))
              (runCmd E (mainCmds L E).tileCmd (setConfig L E.config).debug h.2)
              (runCmd E (mainCmds L E).paletteCmd (setConfig L E.config).debug
                (runCmd E (mainCmds L E).tileCmd (setConfig L E.config).debug h.2).2))
        (mainMap L E w,
          { fs := renamedDir L E w
            trace := w.trace ++ forwardEvents (setConfig L E.config).filetype
              (sortedEntries L E (setConfig L E.config).filetype w.fs)
            out := out }) := by
  obtain ⟨o1, o2, o3⟩ := handleInputFiles_out_irrelevant L E (setConfig L E.config).filetype
    (setConfig L E.config).debug w (w.out ++ setConfigOut (setConfig L E.config))
  have o4 := o3.trans (handleInputFiles_trace L E hE _ _ w)
  refine ⟨(handleInputFiles L E (setConfig L E.config).filetype (setConfig L E.config).debug
      { w with out := w.out ++ setConfigOut (setConfig L E.config) }).2.out, ?_⟩
  have hw : (handleInputFiles L E (setConfig L E.config).filetype (setConfig L E.config).debug
      { w with out := w.out ++ setConfigOut (setConfig L E.config) }) =
      (mainMap L E w,
        { fs := renamedDir L E w
          trace := w.trace ++ forwardEvents (setConfig L E.config).filetype
            (sortedEntries L E (setConfig L E.config).filetype w.fs)
          out := (handleInputFiles L E (setConfig L E.config).filetype
            (setConfig L E.config).debug
            { w with out := w.out ++ setConfigOut (setConfig L E.config) }).2.out }) := by
    apply Prod.ext
    · exact o1
    · have e : ∀ (a : World) (f : Dir) (t : List Event), a.fs = f → a.trace = t →
          a = { fs := f, trace := t, out := a.out } := by
        intro a f t h1 h2
        cases a
        simp_all
      exact e _ _ _ o2 o4
  rw [← hw]
  rfl



theorem runCmd_ok (E : Env) (parts : List String) (dlog : Bool) (w : World) :
    (runCmd E parts dlog w).1 = (E.exec parts w.fs).ok := rfl

theorem runCmd_fs (E : Env) (parts : List String) (dlog : Bool) (w : World) :
    (runCmd E parts dlog w).2.fs = (E.exec parts w.fs).fs := rfl

theorem runCmd_trace (E : Env) (parts : List String) (dlog : Bool) (w : World) :
    (runCmd E parts dlog w).2.trace = w.trace ++ [Event.exec parts] := rfl

theorem nameBack_trace (E : Env) (m : GoMap) (w : World) :
    (nameBack E m w).trace = w.trace ++ backEvents (E.mapOrder m) := by
  unfold nameBack
  rw [nameBackLoop_eq]

theorem nameBack_fs (E : Env) (m : GoMap) (w : World) :
    (nameBack E m w).fs = renamePairs w.fs (E.mapOrder m) := by
  unfold nameBack
  rw [nameBackLoop_eq]

theorem delTmpFile_trace (name : String) (genOk dlog : Bool) (w : World) :
    (delTmpFile name genOk dlog w).trace =
      w.trace ++ (if genOk = true then [Event.remove name] else []) := by
  unfold delTmpFile
  cases genOk <;> simp

theorem main_of_tile_failure (L : GoLib) (hL : L.Permutes) (E : Env)
    (hE : E.readDirErr = none) (w : World)
    (hacc : acceptedFiles L E (setConfig L E.config).filetype w.fs ≠ [])
    (htile : (tileResult L E w).ok = false) :
    (main L E w).2 = 1 ∧
    (main L E w).1.trace =
      w.trace ++ forwardEvents (setConfig L E.config).filetype
          (sortedEntries L E (setConfig L E.config).filetype w.fs) ++
        [Event.exec (mainCmds L E).tileCmd] ++ backEvents (E.mapOrder (mainMap L E w)) := by
  have hne := mainMap_ne_nil L hL E hE w hacc
  have hlen : ¬ (mainMap L E w).length = 0 := by
    rw [List.length_eq_zero]
    exact hne
  obtain ⟨out, hmain⟩ := main_after_rename L E hE w
  have ht : (E.exec (mainCmds L E).tileCmd (renamedDir L E w)).ok = false := htile
  constructor
  · rw [hmain]
    simp only [hlen, if_false, runCmd_ok, ht, if_true]
  · rw [hmain]
    simp only [hlen, if_false, runCmd_ok, ht, if_true, nameBack_trace, runCmd_trace]

/-- C5. In a run of `main` with at least one accepted file in which the tile command fails,
the process does, in this order and nothing else: the renames of `handleInputFiles`, the
tile command, the renames of `nameBack` on the map; the palette and render commands are not
run, nothing is removed, and the exit status is 1. -/
theorem main_tile_failure (L : GoLib) (hL : L.Permutes) (E : Env) (hE : E.readDirErr = none)
    (w : World) (hacc : acceptedFiles L E (setConfig L E.config).filetype w.fs ≠ [])
    (htile : (tileResult L E w).ok = false) :
    (main L E w).2 = 1 ∧
    (main L E w).1.trace =
      w.trace ++ forwardEvents (setConfig L E.config).filetype
          (sortedEntries L E (setConfig L E.config).filetype w.fs) ++
        [Event.exec (mainCmds L E).tileCmd] ++ backEvents (E.mapOrder (mainMap L E w)) ∧
    mainMap L E w ≠ [] ∧
    (∀ parts : List String,
      Event.exec parts ∈ forwardEvents (setConfig L E.config).filetype
          (sortedEntries L E (setConfig L E.config).filetype w.fs) ++
        [Event.exec (mainCmds L E).tileCmd] ++ backEvents (E.mapOrder (mainMap L E w)) →
      parts = (mainCmds L E).tileCmd) := by
  have hne := mainMap_ne_nil L hL E hE w hacc
  obtain ⟨hexit, htrace⟩ := main_of_tile_failure L hL E hE w hacc htile
  refine ⟨hexit, htrace, hne, ?_⟩
  · intro parts hmem
    simp only [forwardEvents, backEvents, List.mem_append, List.mem_map, List.mem_singleton,
      reduceCtorEq, and_false, exists_false, false_or, or_false] at hmem
    exact Event.exec.inj hmem

/-- C5 at the directory with the images `a.png` and `B.png` when every command fails. -/
theorem main_tile_failure_two :
    (main pdqLib (plainEnv false id) (startIn twoImagesDir)).2 = 1 ∧
    (main pdqLib (plainEnv false id) (startIn twoImagesDir)).1.trace =
      [Event.rename "a.png" "000000.png", Event.rename "B.png" "000001.png",
        Event.exec (mainCmds pdqLib (plainEnv false id)).tileCmd,
        Event.rename "000000.png" "a.png", Event.rename "000001.png" "B.png"] :=
  ⟨(main_tile_failure pdqLib pdqLib_permutes (plainEnv false id) rfl
      (startIn twoImagesDir) (by decide) rfl).1,
    by decide⟩

/-- C6. In a run of `main` with at least one accepted file the exit status is non-zero
exactly when the tile command fails. When the tile command succeeds the status is zero and
the process does, in this order and nothing else: the renames of `handleInputFiles`, the
tile command, the palette command, the render command if and only if the palette command
succeeded, the renames of `nameBack` on the map, the removal of `tile.png`, the removal of
`palette.png` if the palette command succeeded, and the wait for a line of input if logging
is on. -/
theorem main_tile_success (L : GoLib) (hL : L.Permutes) (E : Env) (hE : E.readDirErr = none)
    (w : World) (hacc : acceptedFiles L E (setConfig L E.config).filetype w.fs ≠ []) :
    ((main L E w).2 ≠ 0 ↔ (tileResult L E w).ok = false) ∧
    ((tileResult L E w).ok = true →
      (main L E w).2 = 0 ∧
      (main L E w).1.trace =
        w.trace ++ forwardEvents (setConfig L E.config).filetype
            (sortedEntries L E (setConfig L E.config).filetype w.fs) ++
          [Event.exec (mainCmds L E).tileCmd, Event.exec (mainCmds L E).paletteCmd] ++
          (if (paletteResult L E w).ok = true then [Event.exec (mainCmds L E).gifCmd] else []) ++
          backEvents (E.mapOrder (mainMap L E w)) ++
          [Event.remove "tile.png"] ++
          (if (paletteResult L E w).ok = true then [Event.remove "palette.png"] else []) ++
          (if (setConfig L E.config).debug = true then [Event.scanStdin] else [])) := by
  have hne := mainMap_ne_nil L hL E hE w hacc
  have hlen : ¬ (mainMap L E w).length = 0 := by
    rw [List.length_eq_zero]
    exact hne
  obtain ⟨out, hmain⟩ := main_after_rename L E hE w
  have hok : (tileResult L E w).ok = true →
      (main L E w).2 = 0 ∧
      (main L E w).1.trace =
        w.trace ++ forwardEvents (setConfig L E.config).filetype
            (sortedEntries L E (setConfig L E.config).filetype w.fs) ++
          [Event.exec (mainCmds L E).tileCmd, Event.exec (mainCmds L E).paletteCmd] ++
          (if (paletteResult L E w).ok = true then [Event.exec (mainCmds L E).gifCmd] else []) ++
          backEvents (E.mapOrder (mainMap L E w)) ++
          [Event.remove "tile.png"] ++
          (if (paletteResult L E w).ok = true then [Event.remove "palette.png"] else []) ++
          (if (setConfig L E.config).debug = true then [Event.scanStdin] else []) := by
    intro htile
    have ht : (E.exec (mainCmds L E).tileCmd (renamedDir L E w)).ok = true := htile
    have hp : E.exec (mainCmds L E).paletteCmd
        (E.exec (mainCmds L E).tileCmd (renamedDir L E w)).fs = paletteResult L E w := rfl
    rw [hmain]
    simp only [hlen, if_false, runCmd_ok, runCmd_fs, ht, hp, Bool.true_eq_false]
    cases hpal : (paletteResult L E w).ok <;> cases hdbg : (setConfig L E.config).debug
    all_goals simp only [Bool.false_eq_true, if_false, if_true, and_true, true_and]
    all_goals first
      | (simp only [delTmpFile_trace, nameBack_trace, runCmd_trace, World.print,
          Bool.false_eq_true, if_false, if_true, List.append_nil, List.append_assoc,
          List.cons_append, List.nil_append]; done)
      | (split <;>
          simp only [delTmpFile_trace, nameBack_trace, runCmd_trace, World.print,
            Bool.false_eq_true, if_false, if_true, List.append_nil, List.append_assoc,
            List.cons_append, List.nil_append])
  refine ⟨?_, hok⟩
  constructor
  · intro hexit
    cases htile : (tileResult L E w).ok with
    | false => rfl
    | true => exact absurd (hok htile).1 hexit
  · intro htile
    rw [(main_of_tile_failure L hL E hE w hacc htile).1]
    decide



set_option maxRecDepth 1000000 in
/-- C6 at the directory with the images `a.png` and `B.png` when every command succeeds. -/
theorem main_tile_success_two :
    (main pdqLib (plainEnv true id) (startIn twoImagesDir)).2 = 0 ∧
    (main pdqLib (plainEnv true id) (startIn twoImagesDir)).1.trace =
      [Event.rename "a.png" "000000.png", Event.rename "B.png" "000001.png",
        Event.exec (mainCmds pdqLib (plainEnv true id)).tileCmd,
        Event.exec (mainCmds pdqLib (plainEnv true id)).paletteCmd,
        Event.exec (mainCmds pdqLib (plainEnv true id)).gifCmd,
        Event.rename "000000.png" "a.png", Event.rename "000001.png" "B.png",
        Event.remove "tile.png", Event.remove "palette.png", Event.scanStdin] :=
  ⟨((main_tile_success pdqLib pdqLib_permutes (plainEnv true id) rfl
      (startIn twoImagesDir) (by decide)).2 rfl).1,
    by decide⟩

/-! ## Round trip

What a whole run of `main` leaves in the directory: the renames of `handleInputFiles`, the
commands (any status, any effect on a given set of names), the renames of `nameBack` in any
order of the map, and the two calls of `delTmpFile`. -/

theorem find_dst_of_mem (pairs : List (String × String)) (hd : (pairs.map Prod.snd).Nodup)
    (p : String × String) (hp : p ∈ pairs) :
    pairs.find? (fun q => decide (q.2 = p.2)) = some p := by
  cases hf : pairs.find? (fun q => decide (q.2 = p.2)) with
  | none =>
    rw [List.find?_eq_none] at hf
    exact absurd (by simp) (hf p hp)
  | some q =>
    have hq : q ∈ pairs := List.mem_of_find?_eq_some hf
    have hq2 : q.2 = p.2 := by simpa using List.find?_some hf
    rw [List.inj_on_of_nodup_map hd hq hp hq2]

theorem renamePairs_round_trip (fs mid : Dir) (m order : List (String × String))
    (touched : List String)
    (hK : (m.map Prod.fst).Nodup) (hV : (m.map Prod.snd).Nodup)
    (hVex : ∀ v ∈ m.map Prod.snd, fs.read v ≠ none)
    (hKfree : ∀ k ∈ m.map Prod.fst, fs.read k = none)
    (hperm : order.Perm m)
    (hmid : ∀ x, x ∉ touched → mid.read x = (renamePairs fs (m.map Prod.swap)).read x)
    (hKt : ∀ k ∈ m.map Prod.fst, k ∉ touched)
    (x : String) (hx : x ∉ touched) :
    (renamePairs mid order).read x = fs.read x := by
  have hFfst : (m.map Prod.swap).map Prod.fst = m.map Prod.snd := by
    rw [List.map_map]
    rfl
  have hFsnd : (m.map Prod.swap).map Prod.snd = m.map Prod.fst := by
    rw [List.map_map]
    rfl
  have hdisj : ∀ s ∈ m.map Prod.snd, s ∉ m.map Prod.fst := by
    intro s hs hk
    exact hVex s hs (hKfree s hk)
  have fwd := read_renamePairs (m.map Prod.swap) fs (hFfst ▸ hV) (hFsnd ▸ hK)
    (by rw [hFfst]; exact hVex) (by rw [hFfst, hFsnd]; exact hdisj)
  have fwd_key : ∀ p ∈ m, mid.read p.1 = fs.read p.2 := by
    intro p hp
    rw [hmid p.1 (hKt p.1 (List.mem_map.mpr ⟨p, hp, rfl⟩)), fwd]
    have hmem : p.swap ∈ m.map Prod.swap := List.mem_map.mpr ⟨p, hp, rfl⟩
    have := find_dst_of_mem (m.map Prod.swap) (hFsnd ▸ hK) p.swap hmem
    simp only [Prod.snd_swap] at this
    rw [this]
    rfl
  have hOfst : (order.map Prod.fst).Perm (m.map Prod.fst) := hperm.map _
  have hOsnd : (order.map Prod.snd).Perm (m.map Prod.snd) := hperm.map _
  have bwd := read_renamePairs order mid
    (hOfst.nodup_iff.mpr hK) (hOsnd.nodup_iff.mpr hV)
    (by
      intro k hk
      obtain ⟨p, hp, rfl⟩ := List.mem_map.mp (hOfst.mem_iff.mp hk)
      rw [fwd_key p hp]
      exact hVex p.2 (List.mem_map.mpr ⟨p, hp, rfl⟩))
    (by
      intro k hk hv
      exact hdisj k (hOsnd.mem_iff.mp hv) (hOfst.mem_iff.mp hk))
  rw [bwd]
  cases hf : order.find? (fun p => decide (p.2 = x)) with
  | some p =>
    have hp : p ∈ m := hperm.mem_iff.mp (List.mem_of_find?_eq_some hf)
    have hp2 : p.2 = x := by simpa using List.find?_some hf
    simp only
    rw [fwd_key p hp, hp2]
  | none =>
    rw [List.find?_eq_none] at hf
    have hxV : x ∉ m.map Prod.snd := by
      intro hx
      obtain ⟨p, hp, hpx⟩ := List.mem_map.mp hx
      exact hf p (hperm.mem_iff.mpr hp) (by simpa using hpx)
    simp only
    by_cases hxK : x ∈ m.map Prod.fst
    · rw [if_pos (hOfst.mem_iff.mpr hxK), hKfree x hxK]
    · rw [if_neg (fun h => hxK (hOfst.mem_iff.mp h)), hmid x hx, fwd]
      have hnone : (m.map Prod.swap).find? (fun p => decide (p.2 = x)) = none := by
        rw [List.find?_eq_none]
        intro q hq hqx
        apply hxK
        rw [← hFsnd]
        exact List.mem_map.mpr ⟨q, hq, by simpa using hqx⟩
      rw [hnone]
      simp only
      rw [hFfst, if_neg hxV]

theorem Dir.read_remove (fs : Dir) (name x : String) :
    (fs.remove name).1.read x = if x = name then none else fs.read x := by
  unfold Dir.remove Dir.read
  have := lookup_filter_key (fun k => decide (k ≠ name)) fs x
  simp only [decide_eq_true_eq] at this
  rw [this]
  by_cases h : x = name
  · simp [h]
  · simp [h]

theorem delTmpFile_fs (name : String) (genOk dlog : Bool) (w : World) :
    (delTmpFile name genOk dlog w).fs =
      if genOk = true then (w.fs.remove name).1 else w.fs := by
  unfold delTmpFile
  cases genOk <;> simp

theorem main_fs (L : GoLib) (E : Env) (hE : E.readDirErr = none) (w : World)
    (hne : mainMap L E w ≠ []) :
    (main L E w).1.fs =
      if (tileResult L E w).ok = false then
        renamePairs (tileResult L E w).fs (E.mapOrder (mainMap L E w))
      else if (paletteResult L E w).ok = true then
        (((renamePairs (gifResult L E w).fs (E.mapOrder (mainMap L E w))).remove
          "tile.png").1.remove "palette.png").1
      else
        ((renamePairs (paletteResult L E w).fs (E.mapOrder (mainMap L E w))).remove
          "tile.png").1 := by
  have hlen : ¬ (mainMap L E w).length = 0 := by
    rw [List.length_eq_zero]
    exact hne
  obtain ⟨out, hmain⟩ := main_after_rename L E hE w
  have ht : E.exec (mainCmds L E).tileCmd (renamedDir L E w) = tileResult L E w := rfl
  have hp : E.exec (mainCmds L E).paletteCmd (tileResult L E w).fs = paletteResult L E w := rfl
  have hg : E.exec (mainCmds L E).gifCmd (paletteResult L E w).fs = gifResult L E w := rfl
  rw [hmain]
  simp only [hlen, if_false, runCmd_ok, runCmd_fs, ht, hp, hg]
  cases htile : (tileResult L E w).ok <;> cases hpal : (paletteResult L E w).ok <;>
    cases hdbg : (setConfig L E.config).debug
  all_goals simp only [Bool.false_eq_true, Bool.true_eq_false, if_false, if_true]
  all_goals first
    | (simp only [delTmpFile_fs, nameBack_fs, runCmd_fs, World.print, ht, hp, hg,
        Bool.false_eq_true, if_false, if_true]; done)
    | (split <;>
        simp only [delTmpFile_fs, nameBack_fs, runCmd_fs, World.print, ht, hp, hg,
          Bool.false_eq_true, if_false, if_true])

theorem main_fs_without_files (L : GoLib) (hL : L.Permutes) (E : Env) (w : World)
    (h : E.readDirErr ≠ none ∨ acceptedFiles L E (setConfig L E.config).filetype w.fs = []) :
    (main L E w).1.fs = w.fs := by
  have k2 : (handleInputFiles L E (setConfig L E.config).filetype
        (setConfig L E.config).debug w).1 = [] ∧
      (handleInputFiles L E (setConfig L E.config).filetype
        (setConfig L E.config).debug w).2.fs = w.fs := by
    cases hE : E.readDirErr with
    | some err =>
      rw [handleInputFiles_failed L E err hE]
      exact ⟨rfl, rfl⟩
    | none =>
      have hacc : acceptedFiles L E (setConfig L E.config).filetype w.fs = [] := by
        rcases h with h | h
        · exact absurd hE h
        · exact h
      have hes : sortedEntries L E (setConfig L E.config).filetype w.fs = [] :=
        List.Perm.eq_nil (hacc ▸ sortedEntries_perm L hL E _ w.fs)
      rw [handleInputFiles_map L E hE, handleInputFiles_fs L E hE, hes]
      simp [indexedMap, renamePairs]
  obtain ⟨o1, o2, _⟩ := handleInputFiles_out_irrelevant L E (setConfig L E.config).filetype
    (setConfig L E.config).debug w (w.out ++ setConfigOut (setConfig L E.config))
  have hlen : (handleInputFiles L E (setConfig L E.config).filetype (setConfig L E.config).debug
      { w with out := w.out ++ setConfigOut (setConfig L E.config) }).1.length = 0 := by
    rw [o1, k2.1]
    rfl
  unfold main
  simp only [hlen, if_true, World.print]
  exact o2.trans k2.2

theorem writingEnv_exec_read (ok : Bool) (order : GoMap → List (String × String))
    (parts : List String) (fs : Dir) (x : String) (hx : x ≠ parts.getLastD "") :
    ((writingEnv ok order).exec parts fs).fs.read x = fs.read x := by
  have hb : (x == parts.getLastD "") = false := by simpa using hx
  have := lookup_filter_key (fun k => decide (k ≠ parts.getLastD "")) fs x
  simp only [decide_eq_true_eq] at this
  show List.lookup x ((parts.getLastD "", "made") ::
    fs.filter (fun p => decide (p.1 ≠ parts.getLastD ""))) = fs.lookup x
  rw [List.lookup_cons, hb, this, if_pos hx]

set_option maxRecDepth 1000000 in
/-- C1, as the claim has it, fails: in a directory holding `0.png` and `000000.png`, both
images, `handleInputFiles` renames `0.png` over `000000.png`, whose content is lost; after
`nameBack` either `0.png` is missing (map visited in key order) or `000000.png` is (the other
order), and so the whole run of `main` ends, whether the tile command fails or every command
succeeds. With no collision at all, a run of `main` on a directory holding the single image
`tile.png` ends with the directory empty: `tile.png` is removed at the end. -/
theorem round_trip_collision :
    (collisionDir.map Prod.fst).Nodup ∧
    collisionDir.read "0.png" = some "A" ∧ collisionDir.read "000000.png" = some "B" ∧
    (nameBack (plainEnv true id)
      (handleInputFiles pdqLib (plainEnv true id) "png" true (startIn collisionDir)).1
      (handleInputFiles pdqLib (plainEnv true id) "png" true (startIn collisionDir)).2).fs
      = [("000000.png", "A")] ∧
    (nameBack (plainEnv true List.reverse)
      (handleInputFiles pdqLib (plainEnv true List.reverse) "png" true
        (startIn collisionDir)).1
      (handleInputFiles pdqLib (plainEnv true List.reverse) "png" true
        (startIn collisionDir)).2).fs
      = [("0.png", "A")] ∧
    (main pdqLib (plainEnv false id) (startIn collisionDir)).1.fs = [("000000.png", "A")] ∧
    (main pdqLib (plainEnv true id) (startIn collisionDir)).1.fs = [("000000.png", "A")] ∧
    (main pdqLib (plainEnv true List.reverse) (startIn collisionDir)).1.fs = [("0.png", "A")] ∧
    (main pdqLib (plainEnv true id) (startIn [("tile.png", "T")])).1.fs = [] := by
  decide

/-- C1, amended. Take a run of `main` in which none of the three commands changes a file
outside a set `touched` of names, whatever status each command ends with, and whatever the
order in which `nameBack` visits the map. Let the directory hold no file whose name is one of
the generated names `000000.<ext>`, ..., one for each accepted file, and let no generated name
be in `touched`. Then when `main` ends: every name outside `touched` that `main` does not
remove at the end has the content it had before the run, so every input file is back under
its original name with its original content; `tile.png` is absent once the tile command has
succeeded, and `palette.png` once the palette command has too, also when an input file had
that name; and no generated name remains. -/
theorem main_round_trip (L : GoLib) (hL : L.Permutes) (E : Env)
    (horder : ∀ m : GoMap, (E.mapOrder m).Perm m) (w : World) (touched : List String)
    (hexec : ∀ parts : List String,
      parts ∈ [(mainCmds L E).tileCmd, (mainCmds L E).paletteCmd, (mainCmds L E).gifCmd] →
      ∀ (fs : Dir) (x : String), x ∉ touched → (E.exec parts fs).fs.read x = fs.read x)
    (hfs : (w.fs.map Prod.fst).Nodup)
    (hfresh : ∀ i : Nat, i < (acceptedFiles L E (setConfig L E.config).filetype w.fs).length →
      w.fs.read (newName (setConfig L E.config).filetype i) = none)
    (hgen : ∀ i : Nat, i < (acceptedFiles L E (setConfig L E.config).filetype w.fs).length →
      newName (setConfig L E.config).filetype i ∉ touched) :
    (∀ x : String, x ∉ touched → ¬ removedAtEnd L E w x →
      (main L E w).1.fs.read x = w.fs.read x) ∧
    (∀ x : String, removedAtEnd L E w x → (main L E w).1.fs.read x = none) ∧
    (∀ i : Nat, i < (acceptedFiles L E (setConfig L E.config).filetype w.fs).length →
      (main L E w).1.fs.read (newName (setConfig L E.config).filetype i) = none) := by
  have hremoved : ∀ x : String, removedAtEnd L E w x → (main L E w).1.fs.read x = none := by
    intro x hx
    obtain ⟨hne, htile, hx⟩ := hx
    have hE : E.readDirErr = none := by
      cases hE : E.readDirErr with
      | none => rfl
      | some err =>
        exfalso
        apply hne
        unfold mainMap
        rw [handleInputFiles_failed L E err hE]
    rw [main_fs L E hE w hne, if_neg (by simp [htile])]
    rcases hx with hx | ⟨hx, hpal⟩
    · subst hx
      split
      · rw [Dir.read_remove, Dir.read_remove]
        simp
      · rw [Dir.read_remove]
        simp
    · subst hx
      rw [if_pos hpal, Dir.read_remove]
      simp
  have hkept : ∀ x : String, x ∉ touched → ¬ removedAtEnd L E w x →
      (main L E w).1.fs.read x = w.fs.read x := by
    intro x hx hrem
    by_cases hfiles : E.readDirErr ≠ none ∨
        acceptedFiles L E (setConfig L E.config).filetype w.fs = []
    · rw [main_fs_without_files L hL E w hfiles]
    · have hE : E.readDirErr = none := by
        by_contra hE
        exact hfiles (Or.inl hE)
      have hacc : acceptedFiles L E (setConfig L E.config).filetype w.fs ≠ [] :=
        fun h => hfiles (Or.inr h)
      have hne : mainMap L E w ≠ [] := mainMap_ne_nil L hL E hE w hacc
      have hmap : mainMap L E w = indexedMap (setConfig L E.config).filetype
          (sortedEntries L E (setConfig L E.config).filetype w.fs) := by
        unfold mainMap
        rw [handleInputFiles_map L E hE]
      have hdir : renamedDir L E w = renamePairs w.fs
          ((indexedMap (setConfig L E.config).filetype
            (sortedEntries L E (setConfig L E.config).filetype w.fs)).map Prod.swap) := by
        unfold renamedDir
        rw [handleInputFiles_fs L E hE]
        unfold indexedMap
        rw [List.map_map]
        rfl
      have back : ∀ mid : Dir, (∀ y, y ∉ touched → mid.read y = (renamedDir L E w).read y) →
          (renamePairs mid (E.mapOrder (mainMap L E w))).read x = w.fs.read x := by
        intro mid hmid
        rw [hmap]
        refine renamePairs_round_trip w.fs mid
          (indexedMap (setConfig L E.config).filetype
            (sortedEntries L E (setConfig L E.config).filetype w.fs))
          (E.mapOrder (indexedMap (setConfig L E.config).filetype
            (sortedEntries L E (setConfig L E.config).filetype w.fs)))
          touched (indexedMap_keys_nodup _ _) ?_ ?_ ?_ (horder _) ?_ ?_ x hx
        · rw [indexedMap_values]
          exact sortedEntries_nodup L hL E _ w.fs hfs
        · rw [indexedMap_values]
          exact sortedEntries_exist L hL E _ w.fs
        · intro k hk
          rw [indexedMap_keys, List.mem_map] at hk
          obtain ⟨i, hi, rfl⟩ := hk
          rw [List.mem_range, sortedEntries_length L hL] at hi
          exact hfresh i hi
        · intro y hy
          rw [hmid y hy, hdir]
        · intro k hk
          rw [indexedMap_keys, List.mem_map] at hk
          obtain ⟨i, hi, rfl⟩ := hk
          rw [List.mem_range, sortedEntries_length L hL] at hi
          exact hgen i hi
      have ht : ∀ y, y ∉ touched → (tileResult L E w).fs.read y = (renamedDir L E w).read y :=
        fun y hy => hexec _ (by simp) _ y hy
      have hp : ∀ y, y ∉ touched →
          (paletteResult L E w).fs.read y = (renamedDir L E w).read y :=
        fun y hy => (hexec _ (by simp) _ y hy).trans (ht y hy)
      have hg : ∀ y, y ∉ touched → (gifResult L E w).fs.read y = (renamedDir L E w).read y :=
        fun y hy => (hexec _ (by simp) _ y hy).trans (hp y hy)
      rw [main_fs L E hE w hne]
      cases htile : (tileResult L E w).ok with
      | false =>
        rw [if_pos rfl]
        exact back _ ht
      | true =>
        rw [if_neg (by simp)]
        have hxt : x ≠ "tile.png" := fun h => hrem ⟨hne, htile, Or.inl h⟩
        cases hpal : (paletteResult L E w).ok with
        | false =>
          rw [if_neg (by simp), Dir.read_remove, if_neg hxt]
          exact back _ hp
        | true =>
          have hxp : x ≠ "palette.png" := fun h => hrem ⟨hne, htile, Or.inr ⟨h, hpal⟩⟩
          rw [if_pos rfl, Dir.read_remove, if_neg hxp, Dir.read_remove, if_neg hxt]
          exact back _ hg
  refine ⟨hkept, hremoved, ?_⟩
  intro i hi
  by_cases hrem : removedAtEnd L E w (newName (setConfig L E.config).filetype i)
  · exact hremoved _ hrem
  · rw [hkept _ (hgen i hi) hrem]
    exact hfresh i hi

set_option maxRecDepth 1000000 in
/-- C1, amended, at the directory with the images `a.png` and `B.png`, every command
succeeding and writing its output file (`tile.png`, `palette.png`, `output.gif`), the map
being visited from its last entry to its first: `a.png` is back with its content, and
`tile.png` is absent. -/
theorem main_round_trip_two :
    (twoImagesDir.map Prod.fst).Nodup ∧
    (main pdqLib (writingEnv true List.reverse) (startIn twoImagesDir)).1.fs.read "a.png"
      = some "A" ∧
    (main pdqLib (writingEnv true List.reverse) (startIn twoImagesDir)).1.fs.read "tile.png"
      = none :=
  have h := main_round_trip pdqLib pdqLib_permutes (writingEnv true List.reverse)
    (fun m => List.reverse_perm m) (startIn twoImagesDir)
    ["tile.png", "palette.png", "output.gif"]
    (by
      intro parts hparts fs x hx
      apply writingEnv_exec_read
      have hc : mainCmds pdqLib (writingEnv true List.reverse) =
          genCmds "png" "30" true "tile.png" "palette.png" := by decide
      rw [hc] at hparts
      simp only [List.mem_cons, List.mem_singleton, List.not_mem_nil, or_false] at hparts hx
      rcases hparts with h | h | h <;> subst h
      · exact fun h => hx (Or.inl h)
      · exact fun h => hx (Or.inr (Or.inl h))
      · exact fun h => hx (Or.inr (Or.inr h)))
    (by decide) (by decide) (by decide)
  ⟨by decide,
    h.1 "a.png" (by decide)
      (fun hr => hr.2.2.elim (fun e => absurd e (by decide)) (fun e => absurd e.1 (by decide))),
    h.2.1 "tile.png" ⟨by decide, by decide, Or.inl rfl⟩⟩

end GifMaker
